import Mathlib

/-!
# Minesweeper board engine (orackle/minesweeper, `main.go` / `original.go`)

A shallow embedding of the board logic of the Go program: mine placement
(`restart` / `main`), `countMines`, the recursive `revealTile`, `flag` and the
body of `Game.Update` with its win scan. The embedding follows `main.go`;
`countMines`, `revealTile`, the placement loop and the win scan of
`original.go` are the same statements.

Go values are modelled as follows.

* `[][]int` / `[][]bool` are lists of rows; an index expression `g[r][c]`
  with `r`, `c` of Go type `int` is `Grid.get`, which yields `none` exactly
  where Go raises an index-out-of-range panic.
* Functions that may panic, leave the process or recurse return
  `Except Fault _`; the recursion of `revealTile` is driven by a fuel
  argument and the theorems show how much fuel is always enough.
* The package-level `numRows`, `numCols`, `numMines` (15, 20 and 40 in the
  program) are parameters, natural numbers; tile coordinates are integers,
  since the offset sweeps and the cursor produce negative ones. A sweep only
  starts from a tile on the board, so `row + dr` stays far from the limits
  of the 64-bit `int` and unbounded integers are exact.
* Drawing (`Draw`, the colour table, the button labels) is left out.
* `math/rand` is a list of the `(row, col)` pairs the two `rand.Intn` calls
  of one loop round deliver.
-/

namespace Minesweeper

/-! ## Faults -/

/-- Ways a run of the embedded code stops without a result. -/
inductive Fault where
  | indexOutOfRange
  | invalidArgument
  | nilAction
  | processExit
  | outOfFuel
  deriving DecidableEq, Repr

deriving instance DecidableEq for Except

/-! ## Grids -/

/-- A Go slice of slices. -/
abbrev Grid (α : Type) := List (List α)

/-- The index expression `g[r][c]`; `none` is the index-out-of-range panic. -/
def Grid.get {α : Type} (g : Grid α) (r c : Int) : Option α :=
  if 0 ≤ r ∧ 0 ≤ c then
    match g[r.toNat]? with
    | none => none
    | some ln => ln[c.toNat]?
  else none

/-- The assignment `g[r][c] = v`; `none` is the index-out-of-range panic. -/
def Grid.set {α : Type} (g : Grid α) (r c : Int) (v : α) : Option (Grid α) :=
  if 0 ≤ r ∧ 0 ≤ c then
    match g[r.toNat]? with
    | none => none
    | some ln =>
      if c.toNat < ln.length then some (List.set g r.toNat (List.set ln c.toNat v))
      else none
  else none

/-- The allocation loop of `restart` / `main`: `numRows` rows of `numCols`
zero values each. -/
def makeGrid {α : Type} (numRows numCols : Nat) (zero : α) : Grid α :=
  List.replicate numRows (List.replicate numCols zero)

/-- Number of cells of a grid that satisfy `p`. -/
def Grid.countP {α : Type} (p : α → Bool) : Grid α → Nat
  | [] => 0
  | ln :: rest => List.countP p ln + Grid.countP p rest

/-- The grid has `numRows` rows of `numCols` cells each, as every grid
allocated by `restart` / `main` has. -/
def Grid.WF {α : Type} (numRows numCols : Nat) (g : Grid α) : Prop :=
  g.length = numRows ∧ ∀ ln ∈ g, ln.length = numCols

instance {α : Type} (numRows numCols : Nat) (g : Grid α) :
    Decidable (Grid.WF numRows numCols g) := by
  unfold Grid.WF; exact inferInstance

/-- The bounds test `r >= 0 && r < numRows && c >= 0 && c < numCols`. -/
def inBounds (numRows numCols : Nat) (r c : Int) : Prop :=
  r ≥ 0 ∧ r < numRows ∧ c ≥ 0 ∧ c < numCols

instance (numRows numCols : Nat) (r c : Int) : Decidable (inBounds numRows numCols r c) := by
  unfold inBounds; exact inferInstance

/-! ## Loops -/

/-- A Go `for` loop over the values `xs` in order, threading the state and
stopping at the first fault. -/
def forEach {ι σ : Type} (f : ι → σ → Except Fault σ) : List ι → σ → Except Fault σ
  | [], s => .ok s
  | x :: rest, s =>
    match f x s with
    | .ok s1 => forEach f rest s1
    | .error e => .error e

/-- The values of `for d := -1; d <= 1; d++`. -/
def offsets : List Int := [-1, 0, 1]

/-! ## Game state -/

/-- The function value stored in `Button.action`. -/
inductive Action where
  | nil
  | restart
  | exit
  deriving DecidableEq, Repr

/-- The `Button` struct without its label. The `float64` fields only ever
hold the integral constants assigned in `Update`, so they are integers
here and the comparisons of `isMouseInButton` are exact. -/
structure Button where
  x : Int
  y : Int
  width : Int
  height : Int
  action : Action
  active : Bool
  deriving DecidableEq, Repr

/-- The `Game` struct without its colour table. -/
structure Game where
  board : Grid Int
  revealed : Grid Bool
  flagged : Grid Bool
  gameOver : Bool
  gameWon : Bool
  restartBtn : Button
  exitBtn : Button
  shouldExit : Bool
  deriving DecidableEq, Repr

/-- The zero value of `Button`. -/
def Button.zero : Button :=
  { x := 0, y := 0, width := 0, height := 0, action := Action.nil, active := false }

/-! ## `countMines` -/

/-- One round of the inner `dr`/`dc` loops of `countMines`: the guarded test
of the neighbour `(row+dr, col+dc)` and the increment of `count`. -/
def countStep (numRows numCols : Nat) (board : Grid Int) (row col dr dc : Int)
    (count : Int) : Except Fault Int :=
  let r := row + dr
  let c := col + dc
  if r ≥ 0 ∧ r < numRows ∧ c ≥ 0 ∧ c < numCols then
    match Grid.get board r c with
    | none => .error .indexOutOfRange
    | some v => if v = -1 then .ok (count + 1) else .ok count
  else .ok count

/-- The two offset loops of `countMines` for one tile, from `count := 0`. -/
def countAround (numRows numCols : Nat) (board : Grid Int) (row col : Int) :
    Except Fault Int :=
  forEach (fun dr count =>
    forEach (fun dc count1 => countStep numRows numCols board row col dr dc count1)
      offsets count) offsets 0

/-- The body of the `col` loop of `countMines`. -/
def countCell (numRows numCols : Nat) (row col : Int) (board : Grid Int) :
    Except Fault (Grid Int) :=
  match Grid.get board row col with
  | none => .error .indexOutOfRange
  | some v =>
    if v = -1 then .ok board
    else
      match countAround numRows numCols board row col with
      | .error e => .error e
      | .ok count =>
        match Grid.set board row col count with
        | none => .error .indexOutOfRange
        | some board1 => .ok board1

/-- The method `countMines`, acting in place on the board. -/
def countMines (numRows numCols : Nat) (board : Grid Int) : Except Fault (Grid Int) :=
  forEach (fun (row : Nat) b =>
    forEach (fun (col : Nat) b1 => countCell numRows numCols row col b1)
      (List.range numCols) b) (List.range numRows) board

/-! ## `revealTile` and `flag` -/

/-- The method `revealTile`. The recursion depth is bounded by `fuel`. -/
def revealTile (numRows numCols : Nat) : Nat → Game → Int → Int → Except Fault Game
  | 0, _, _, _ => .error .outOfFuel
  | fuel + 1, g, row, col =>
    if row < 0 ∨ row ≥ numRows ∨ col < 0 ∨ col ≥ numCols then .ok g
    else
      match Grid.get g.revealed row col with
      | none => .error .indexOutOfRange
      | some true => .ok g
      | some false =>
        match Grid.set g.revealed row col true with
        | none => .error .indexOutOfRange
        | some rev1 =>
          match Grid.get g.board row col with
          | none => .error .indexOutOfRange
          | some v =>
            if v = -1 then .ok { g with revealed := rev1, gameOver := true }
            else if v = 0 then
              forEach (fun dr g1 =>
                forEach (fun dc g2 => revealTile numRows numCols fuel g2 (row + dr) (col + dc))
                  offsets g1) offsets { g with revealed := rev1 }
            else .ok { g with revealed := rev1 }

/-- The method `flag`. -/
def flag (g : Game) (row col : Int) : Except Fault Game :=
  match Grid.get g.revealed row col with
  | none => .error .indexOutOfRange
  | some true => .ok g
  | some false =>
    match Grid.get g.flagged row col with
    | none => .error .indexOutOfRange
    | some f =>
      match Grid.set g.flagged row col (!f) with
      | none => .error .indexOutOfRange
      | some fl => .ok { g with flagged := fl }

/-! ## Mine placement and `restart` -/

/-- The inner `for { ... }` of the placement loop: draw `(row, col)` until a
cell holding `0` is found, set it to `-1` and leave the loop. The result
carries the samples not yet consumed; when the samples run out the loop is
still running, which is `outOfFuel`. `rand.Intn(n)` panics for `n <= 0`. -/
def placeOne (numRows numCols : Nat) : List (Int × Int) → Grid Int →
    Except Fault (Grid Int × List (Int × Int))
  | [], _ => if numRows = 0 ∨ numCols = 0 then .error .invalidArgument else .error .outOfFuel
  | (row, col) :: rest, board =>
    if numRows = 0 ∨ numCols = 0 then .error .invalidArgument
    else
      match Grid.get board row col with
      | none => .error .indexOutOfRange
      | some v =>
        if v = 0 then
          match Grid.set board row col (-1) with
          | none => .error .indexOutOfRange
          | some board1 => .ok (board1, rest)
        else placeOne numRows numCols rest board

/-- The loop `for i := 0; i < numMines; i++` around `placeOne`. -/
def placeMines (numRows numCols : Nat) : Nat → List (Int × Int) → Grid Int →
    Except Fault (Grid Int)
  | 0, _, board => .ok board
  | n + 1, samples, board =>
    match placeOne numRows numCols samples board with
    | .error e => .error e
    | .ok (board1, rest) => placeMines numRows numCols n rest board1

/-- The method `restart` of `main.go`: fresh grids, mine placement,
`countMines`, and the reset of the flags and buttons. -/
def restart (numRows numCols numMines : Nat) (samples : List (Int × Int)) (g : Game) :
    Except Fault Game :=
  match placeMines numRows numCols numMines samples (makeGrid numRows numCols 0) with
  | .error e => .error e
  | .ok placed =>
    match countMines numRows numCols placed with
    | .error e => .error e
    | .ok board =>
      .ok { board := board
            revealed := makeGrid numRows numCols false
            flagged := makeGrid numRows numCols false
            gameOver := false
            gameWon := false
            restartBtn := { g.restartBtn with active := false }
            exitBtn := { g.exitBtn with active := false }
            shouldExit := g.shouldExit }

/-! ## `Update` -/

/-- The constant `tileSize`. -/
def tileSize : Int := 40

/-- The constant `screenWidth`. -/
def screenWidth : Int := 800

/-- The constant `screenHeight`. -/
def screenHeight : Int := 600

/-- The constant `buttonWidth`. -/
def buttonWidth : Int := 200

/-- The constant `buttonHeight`. -/
def buttonHeight : Int := 50

/-- What `ebiten.IsMouseButtonPressed` and `ebiten.CursorPosition` report
during one tick. -/
structure Input where
  leftPressed : Bool
  rightPressed : Bool
  cursorX : Int
  cursorY : Int
  deriving DecidableEq, Repr

/-- The method `isMouseInButton`. -/
def isMouseInButton (mx my : Int) (btn : Button) : Bool :=
  decide (mx ≥ btn.x ∧ mx ≤ btn.x + btn.width ∧ my ≥ btn.y ∧ my ≤ btn.y + btn.height)

/-- A call of the function stored in a button. -/
def runAction (numRows numCols numMines : Nat) (samples : List (Int × Int)) (g : Game) :
    Action → Except Fault Game
  | Action.nil => .error .nilAction
  | Action.restart => restart numRows numCols numMines samples g
  | Action.exit => .error .processExit

/-- The first block of the terminal branch of `Update`: when the restart
button is not active, both buttons are created. -/
def showButtons (g : Game) : Game :=
  if g.restartBtn.active = false then
    { g with
      restartBtn :=
        { x := Int.tdiv screenWidth 2 - Int.tdiv buttonWidth 2
          y := Int.tdiv screenHeight 2 - Int.tdiv buttonHeight 2 - 30
          width := buttonWidth
          height := buttonHeight
          action := Action.restart
          active := true }
      exitBtn :=
        { x := Int.tdiv screenWidth 2 - Int.tdiv buttonWidth 2
          y := Int.tdiv screenHeight 2 - Int.tdiv buttonHeight 2 + 30
          width := buttonWidth
          height := buttonHeight
          action := Action.exit
          active := true } }
  else g

/-- The branch of `Update` taken when `gameOver || gameWon`: show the two
buttons and serve a click on one of them; no tile is revealed or flagged. -/
def updateTerminal (numRows numCols numMines : Nat) (samples : List (Int × Int))
    (inp : Input) (g : Game) : Except Fault Game :=
  let g1 := showButtons g
  if inp.leftPressed then
    if g1.restartBtn.active ∧ isMouseInButton inp.cursorX inp.cursorY g1.restartBtn then
      runAction numRows numCols numMines samples g1 g1.restartBtn.action
    else if g1.exitBtn.active ∧ isMouseInButton inp.cursorX inp.cursorY g1.exitBtn then
      runAction numRows numCols numMines samples g1 g1.exitBtn.action
    else .ok g1
  else .ok g1

/-- The left-button block of `Update`: the click is mapped to a tile and
`revealTile` is called when the tile lies on the board. -/
def leftClick (numRows numCols fuel : Nat) (inp : Input) (g : Game) : Except Fault Game :=
  if inp.leftPressed then
    let col := Int.tdiv inp.cursorX tileSize
    let row := Int.tdiv inp.cursorY tileSize
    if row ≥ 0 ∧ row < numRows ∧ col ≥ 0 ∧ col < numCols then
      revealTile numRows numCols fuel g row col
    else .ok g
  else .ok g

/-- The right-button block of `Update`: the click is mapped to a tile and
`flag` is called when the tile lies on the board. -/
def rightClick (numRows numCols : Nat) (inp : Input) (g : Game) : Except Fault Game :=
  if inp.rightPressed then
    let col := Int.tdiv inp.cursorX tileSize
    let row := Int.tdiv inp.cursorY tileSize
    if row ≥ 0 ∧ row < numRows ∧ col ≥ 0 ∧ col < numCols then
      flag g row col
    else .ok g
  else .ok g

/-- The inner `col` loop of the win scan for one row, entered with the
current value of `win`: at the first tile that is neither a mine nor
revealed it sets `win = false` and breaks. -/
def scanRow (g : Game) (row : Int) : List Nat → Bool → Except Fault Bool
  | [], win => .ok win
  | col :: rest, win =>
    match Grid.get g.board row col with
    | none => .error .indexOutOfRange
    | some v =>
      if v ≠ -1 then
        match Grid.get g.revealed row col with
        | none => .error .indexOutOfRange
        | some r => if r = false then .ok false else scanRow g row rest win
      else scanRow g row rest win

/-- The win scan of `Update`: the value of `win` after the two loops,
starting from `win := true`. -/
def winScan (numRows numCols : Nat) (g : Game) : Except Fault Bool :=
  forEach (fun (row : Nat) win => scanRow g row (List.range numCols) win)
    (List.range numRows) true

/-- The statement `if win { g.gameWon = true }`. -/
def applyWin (g : Game) (win : Bool) : Game :=
  if win then { g with gameWon := true } else g

/-- The method `Update` of `main.go`. -/
def Update (numRows numCols numMines fuel : Nat) (samples : List (Int × Int))
    (inp : Input) (g : Game) : Except Fault Game :=
  if g.gameOver ∨ g.gameWon then updateTerminal numRows numCols numMines samples inp g
  else
    match leftClick numRows numCols fuel inp g with
    | .error e => .error e
    | .ok g1 =>
      match rightClick numRows numCols inp g1 with
      | .error e => .error e
      | .ok g2 =>
        match winScan numRows numCols g2 with
        | .error e => .error e
        | .ok win => .ok (applyWin g2 win)

/-! ## Sequences of player operations -/

/-- A call of `revealTile` or of `flag`. -/
inductive Op where
  | reveal (row col : Int)
  | flag (row col : Int)
  deriving DecidableEq, Repr

/-- One operation applied to a game. -/
def runOp (numRows numCols fuel : Nat) (g : Game) : Op → Except Fault Game
  | Op.reveal row col => revealTile numRows numCols fuel g row col
  | Op.flag row col => flag g row col

/-- The operations applied one after the other. -/
def runOps (numRows numCols fuel : Nat) (ops : List Op) (g : Game) : Except Fault Game :=
  forEach (fun op g1 => runOp numRows numCols fuel g1 op) ops g

/-- The game `main` builds around a board: nothing revealed or flagged, both
flags false, zero-valued buttons. -/
def freshGame (numRows numCols : Nat) (board : Grid Int) : Game :=
  { board := board
    revealed := makeGrid numRows numCols false
    flagged := makeGrid numRows numCols false
    gameOver := false
    gameWon := false
    restartBtn := Button.zero
    exitBtn := Button.zero
    shouldExit := false }

/-- Number of tiles not yet revealed. -/
def unrevealed (g : Game) : Nat := Grid.countP (fun b => !b) g.revealed

/-- Number of tiles holding a mine. -/
def mineCount (board : Grid Int) : Nat := Grid.countP (fun v => decide (v = -1)) board


/-! ## Specification vocabulary -/

/-- The eight Moore neighbours of a tile. -/
def moore (row col : Int) : List (Int × Int) :=
  [(row - 1, col - 1), (row - 1, col), (row - 1, col + 1),
   (row, col - 1), (row, col + 1),
   (row + 1, col - 1), (row + 1, col), (row + 1, col + 1)]

/-- The tile `(r, c)` lies on the board and holds a mine. -/
def isMineAt (numRows numCols : Nat) (board : Grid Int) (r c : Int) : Bool :=
  decide (inBounds numRows numCols r c ∧ Grid.get board r c = some (-1))

/-- Number of mines among the in-bounds Moore neighbours of a tile. -/
def adjacentMines (numRows numCols : Nat) (board : Grid Int) (row col : Int) : Nat :=
  List.countP (fun p => isMineAt numRows numCols board p.1 p.2) (moore row col)

/-- Loop invariant of `countMines` when the scan stands before tile
`(i, j)`: mines are untouched, the tiles already visited hold their count
in the input grid `board0`, the others still hold their input value. -/
def CountInv (numRows numCols : Nat) (board0 : Grid Int) (i j : Nat) (b : Grid Int) : Prop :=
  Grid.WF numRows numCols b ∧ mineCount b = mineCount board0 ∧
  ∀ r c : Int, inBounds numRows numCols r c →
    (Grid.get board0 r c = some (-1) → Grid.get b r c = some (-1)) ∧
    (Grid.get board0 r c ≠ some (-1) →
      ((r < i ∨ (r = i ∧ c < j)) →
        Grid.get b r c = some (adjacentMines numRows numCols board0 r c : Int)) ∧
      (¬ (r < i ∨ (r = i ∧ c < j)) → Grid.get b r c = Grid.get board0 r c))

/-- The method `revealTile` with a ghost counter: the second component of
the state is increased by one at every call that passes the guard and marks
a tile revealed. Erasing the counter gives `revealTile`. -/
def revealTileCount (numRows numCols : Nat) :
    Nat → Game × Nat → Int → Int → Except Fault (Game × Nat)
  | 0, _, _, _ => .error .outOfFuel
  | fuel + 1, (g, n), row, col =>
    if row < 0 ∨ row ≥ numRows ∨ col < 0 ∨ col ≥ numCols then .ok (g, n)
    else
      match Grid.get g.revealed row col with
      | none => .error .indexOutOfRange
      | some true => .ok (g, n)
      | some false =>
        match Grid.set g.revealed row col true with
        | none => .error .indexOutOfRange
        | some rev1 =>
          match Grid.get g.board row col with
          | none => .error .indexOutOfRange
          | some v =>
            if v = -1 then .ok ({ g with revealed := rev1, gameOver := true }, n + 1)
            else if v = 0 then
              forEach (fun dr s1 =>
                forEach (fun dc s2 =>
                  revealTileCount numRows numCols fuel s2 (row + dr) (col + dc))
                  offsets s1) offsets ({ g with revealed := rev1 }, n + 1)
            else .ok ({ g with revealed := rev1 }, n + 1)

/-- Forgetting the ghost counter. -/
def eraseCount : Except Fault (Game × Nat) → Except Fault Game
  | .ok (g, _) => .ok g
  | .error e => .error e

/-- The tile is marked revealed. -/
def Rev (g : Game) (x y : Int) : Prop := Grid.get g.revealed x y = some true

/-- The tile `(x1, y1)` is `(x, y)` or one of its eight Moore neighbours. -/
def Adj (x y x1 y1 : Int) : Prop :=
  x - 1 ≤ x1 ∧ x1 ≤ x + 1 ∧ y - 1 ≤ y1 ∧ y1 ≤ y + 1

/-- The count-0 tiles reachable from `(r, c)` through 8-connected paths of
count-0 tiles of the board. -/
inductive ZeroPath (numRows numCols : Nat) (board : Grid Int) (r c : Int) : Int → Int → Prop
  | start : inBounds numRows numCols r c → Grid.get board r c = some 0 →
      ZeroPath numRows numCols board r c r c
  | step {x y x1 y1 : Int} : ZeroPath numRows numCols board r c x y → Adj x y x1 y1 →
      inBounds numRows numCols x1 y1 → Grid.get board x1 y1 = some 0 →
      ZeroPath numRows numCols board r c x1 y1

/-- The tiles a call on `(r, c)` may newly reveal: the target itself and the
tiles around the count-0 tiles reachable from it. -/
def Sound (numRows numCols : Nat) (board : Grid Int) (r c x y : Int) : Prop :=
  (x = r ∧ y = c) ∨ ∃ zx zy, ZeroPath numRows numCols board r c zx zy ∧ Adj zx zy x y

/-- The tiles around the count-0 tiles reachable from `(r, c)`. -/
def SoundZ (numRows numCols : Nat) (board : Grid Int) (r c x y : Int) : Prop :=
  ∃ zx zy, ZeroPath numRows numCols board r c zx zy ∧ Adj zx zy x y

/-- How a later state `t` extends `g` during a flood fill whose newly
revealed tiles lie in `S`. -/
structure Ext (numRows numCols : Nat) (S : Int → Int → Prop) (g t : Game) : Prop where
  board : t.board = g.board
  flagged : t.flagged = g.flagged
  gameWon : t.gameWon = g.gameWon
  restartBtn : t.restartBtn = g.restartBtn
  exitBtn : t.exitBtn = g.exitBtn
  wf : Grid.WF numRows numCols t.revealed
  count : unrevealed t ≤ unrevealed g
  mono : ∀ x y, Rev g x y → Rev t x y
  closure : ∀ x y x1 y1, Rev t x y → ¬ Rev g x y → Grid.get g.board x y = some 0 →
    Adj x y x1 y1 → inBounds numRows numCols x1 y1 → Rev t x1 y1
  sound : ∀ x y, Rev t x y → ¬ Rev g x y → S x y
  overMono : g.gameOver = true → t.gameOver = true
  overCause : t.gameOver = true →
    g.gameOver = true ∨ ∃ x y, Rev t x y ∧ ¬ Rev g x y ∧ Grid.get g.board x y = some (-1)

/-- The effect of a call `revealTile(r, c)` from `g` to `t`. -/
def RevealSpec (numRows numCols : Nat) (g : Game) (r c : Int) (t : Game) : Prop :=
  Ext numRows numCols (Sound numRows numCols g.board r c) g t ∧
    (inBounds numRows numCols r c → Rev t r c)

/-- Every count-0 tile of the board has no mine on it or around it, as on
the boards `countMines` produces. -/
def Consistent (numRows numCols : Nat) (board : Grid Int) : Prop :=
  ∀ x y x1 y1 : Int, Grid.get board x y = some 0 → Adj x y x1 y1 →
    inBounds numRows numCols x1 y1 → Grid.get board x1 y1 ≠ some (-1)

/-! # Theorems -/

/-! ## Grid lemmas -/

theorem Grid.get_eq_some_iff {α : Type} (g : Grid α) (r c : Int) (x : α) :
    Grid.get g r c = some x ↔
      0 ≤ r ∧ 0 ≤ c ∧ ∃ ln, g[r.toNat]? = some ln ∧ ln[c.toNat]? = some x := by
  unfold Grid.get
  by_cases h : 0 ≤ r ∧ 0 ≤ c
  · rw [if_pos h]
    cases hg : g[r.toNat]? with
    | none => simp
    | some ln => simp [h.1, h.2]
  · rw [if_neg h]
    constructor
    · intro h1; cases h1
    · rintro ⟨h1, h2, _⟩; exact absurd ⟨h1, h2⟩ h

theorem Grid.set_eq_some_iff {α : Type} (g : Grid α) (r c : Int) (v : α) (g1 : Grid α) :
    Grid.set g r c v = some g1 ↔
      0 ≤ r ∧ 0 ≤ c ∧ ∃ ln, g[r.toNat]? = some ln ∧ c.toNat < ln.length ∧
        g1 = List.set g r.toNat (List.set ln c.toNat v) := by
  unfold Grid.set
  by_cases h : 0 ≤ r ∧ 0 ≤ c
  · rw [if_pos h]
    cases hg : g[r.toNat]? with
    | none => simp
    | some ln =>
      simp only []
      by_cases hc : c.toNat < ln.length
      · rw [if_pos hc]
        constructor
        · intro h1
          exact ⟨h.1, h.2, ln, rfl, hc, (Option.some.inj h1).symm⟩
        · rintro ⟨_, _, l1, h3, _, h5⟩
          cases h3
          rw [h5]
      · rw [if_neg hc]
        constructor
        · intro h1; cases h1
        · rintro ⟨_, _, l1, h3, h4, _⟩
          cases h3
          exact absurd h4 hc
  · rw [if_neg h]
    constructor
    · intro h1; cases h1
    · rintro ⟨h1, h2, _⟩; exact absurd ⟨h1, h2⟩ h

theorem Grid.set_of_get {α : Type} {g : Grid α} {r c : Int} {x : α} (v : α)
    (h : Grid.get g r c = some x) : ∃ g1, Grid.set g r c v = some g1 := by
  obtain ⟨h1, h2, ln, h3, h4⟩ := (Grid.get_eq_some_iff g r c x).1 h
  refine ⟨_, (Grid.set_eq_some_iff g r c v _).2 ⟨h1, h2, ln, h3, ?_, rfl⟩⟩
  exact (List.getElem?_eq_some_iff.1 h4).1

theorem Grid.get_set {α : Type} {g g1 : Grid α} {r c : Int} {v : α}
    (h : Grid.set g r c v = some g1) (r1 c1 : Int) :
    Grid.get g1 r1 c1 = if r1 = r ∧ c1 = c then some v else Grid.get g r1 c1 := by
  obtain ⟨h1, h2, ln, h3, h4, rfl⟩ := (Grid.set_eq_some_iff g r c v g1).1 h
  have hr : r.toNat < g.length := (List.getElem?_eq_some_iff.1 h3).1
  by_cases hb : 0 ≤ r1 ∧ 0 ≤ c1
  · unfold Grid.get
    rw [if_pos hb, if_pos hb]
    by_cases e1 : r1 = r
    · subst e1
      rw [List.getElem?_set_self hr, h3]
      by_cases e2 : c1 = c
      · subst e2
        simp [List.getElem?_set_self h4]
      · have : c.toNat ≠ c1.toNat := by omega
        simp [e2, List.getElem?_set_ne this]
    · have : r.toNat ≠ r1.toNat := by omega
      rw [List.getElem?_set_ne this]
      simp [e1]
  · have e : ¬ (r1 = r ∧ c1 = c) := by
      rintro ⟨rfl, rfl⟩; exact hb ⟨h1, h2⟩
    unfold Grid.get
    rw [if_neg hb, if_neg hb, if_neg e]

theorem Grid.WF_set {α : Type} {numRows numCols : Nat} {g g1 : Grid α} {r c : Int} {v : α}
    (hw : Grid.WF numRows numCols g) (h : Grid.set g r c v = some g1) :
    Grid.WF numRows numCols g1 := by
  obtain ⟨_, _, ln, h3, _, rfl⟩ := (Grid.set_eq_some_iff g r c v g1).1 h
  refine ⟨by rw [List.length_set]; exact hw.1, ?_⟩
  intro l hl
  rcases List.mem_or_eq_of_mem_set hl with h5 | h5
  · exact hw.2 l h5
  · subst h5
    rw [List.length_set]
    exact hw.2 ln (List.getElem?_mem h3)

theorem Grid.get_of_WF {α : Type} {numRows numCols : Nat} {g : Grid α} {r c : Int}
    (hw : Grid.WF numRows numCols g) (hb : inBounds numRows numCols r c) :
    ∃ x, Grid.get g r c = some x := by
  obtain ⟨h1, h2, h3, h4⟩ := hb
  have hr : r.toNat < g.length := by rw [hw.1]; omega
  have hc : c.toNat < (g[r.toNat]).length := by
    rw [hw.2 _ (List.getElem_mem hr)]; omega
  exact ⟨(g[r.toNat])[c.toNat], (Grid.get_eq_some_iff g r c _).2
    ⟨h1, h3, g[r.toNat], List.getElem?_eq_getElem hr, List.getElem?_eq_getElem hc⟩⟩

theorem Grid.inBounds_of_get {α : Type} {numRows numCols : Nat} {g : Grid α} {r c : Int}
    {x : α} (hw : Grid.WF numRows numCols g) (h : Grid.get g r c = some x) :
    inBounds numRows numCols r c := by
  obtain ⟨h1, h2, ln, h3, h4⟩ := (Grid.get_eq_some_iff g r c x).1 h
  have hr : r.toNat < g.length := (List.getElem?_eq_some_iff.1 h3).1
  have hc : c.toNat < ln.length := (List.getElem?_eq_some_iff.1 h4).1
  rw [hw.2 ln (List.getElem?_mem h3)] at hc
  rw [hw.1] at hr
  refine ⟨h1, ?_, h2, ?_⟩ <;> omega


theorem List.countP_set_add {α : Type} (p : α → Bool) (v : α) :
    ∀ (l : List α) (i : Nat) (x : α), l[i]? = some x →
      List.countP p (List.set l i v) + (if p x then 1 else 0) =
        List.countP p l + (if p v then 1 else 0)
  | [], i, x, h => by simp at h
  | a :: l, 0, x, h => by
    simp only [List.getElem?_cons_zero, Option.some.injEq] at h
    subst h
    simp only [List.set_cons_zero, List.countP_cons]
    omega
  | a :: l, i + 1, x, h => by
    simp only [List.getElem?_cons_succ] at h
    have ih := List.countP_set_add p v l i x h
    simp only [List.set_cons_succ, List.countP_cons]
    omega

theorem Grid.countP_setRow {α : Type} (p : α → Bool) (ln1 : List α) :
    ∀ (g : Grid α) (n : Nat) (ln : List α), g[n]? = some ln →
      Grid.countP p (List.set g n ln1) + List.countP p ln =
        Grid.countP p g + List.countP p ln1
  | [], n, ln, h => by simp at h
  | a :: g, 0, ln, h => by
    simp only [List.getElem?_cons_zero, Option.some.injEq] at h
    subst h
    simp only [List.set_cons_zero, Grid.countP]
    omega
  | a :: g, n + 1, ln, h => by
    simp only [List.getElem?_cons_succ] at h
    have ih := Grid.countP_setRow p ln1 g n ln h
    simp only [List.set_cons_succ, Grid.countP]
    omega

theorem Grid.countP_set {α : Type} (p : α → Bool) {g g1 : Grid α} {r c : Int} {v x : α}
    (h : Grid.set g r c v = some g1) (hx : Grid.get g r c = some x) :
    Grid.countP p g1 + (if p x then 1 else 0) = Grid.countP p g + (if p v then 1 else 0) := by
  obtain ⟨_, _, ln, h3, _, rfl⟩ := (Grid.set_eq_some_iff g r c v g1).1 h
  obtain ⟨_, _, l1, h4, h5⟩ := (Grid.get_eq_some_iff g r c x).1 hx
  rw [h3] at h4
  cases h4
  have e1 := Grid.countP_setRow p (List.set ln c.toNat v) g r.toNat ln h3
  have e2 := List.countP_set_add p v ln c.toNat x h5
  omega

theorem Grid.countP_le {α : Type} (p : α → Bool) (numCols : Nat) :
    ∀ (g : Grid α), (∀ ln ∈ g, ln.length = numCols) → Grid.countP p g ≤ g.length * numCols
  | [], _ => by simp [Grid.countP]
  | ln :: g, h => by
    have ih := Grid.countP_le p numCols g (fun l hl => h l (List.mem_cons_of_mem _ hl))
    have h1 : List.countP p ln ≤ ln.length := List.countP_le_length p
    rw [h ln (List.mem_cons_self _ _)] at h1
    simp only [Grid.countP, List.length_cons, Nat.succ_mul]
    omega

theorem Grid.countP_le_of_WF {α : Type} (p : α → Bool) {numRows numCols : Nat} {g : Grid α}
    (hw : Grid.WF numRows numCols g) : Grid.countP p g ≤ numRows * numCols := by
  have h := Grid.countP_le p numCols g hw.2
  rw [hw.1] at h
  exact h

theorem makeGrid_WF {α : Type} (numRows numCols : Nat) (z : α) :
    Grid.WF numRows numCols (makeGrid numRows numCols z) := by
  refine ⟨by simp [makeGrid], ?_⟩
  intro l hl
  rw [makeGrid, List.mem_replicate] at hl
  rw [hl.2, List.length_replicate]

theorem makeGrid_get {α : Type} {numRows numCols : Nat} (z : α) {r c : Int} {x : α}
    (h : Grid.get (makeGrid numRows numCols z) r c = some x) : x = z := by
  obtain ⟨_, _, ln, h3, h4⟩ := (Grid.get_eq_some_iff _ r c x).1 h
  have h5 := List.getElem?_mem h3
  rw [makeGrid, List.mem_replicate] at h5
  rw [h5.2] at h4
  have h6 := List.getElem?_mem h4
  exact (List.mem_replicate.1 h6).2

theorem makeGrid_countP {α : Type} (p : α → Bool) (numRows numCols : Nat) (z : α)
    (hz : p z = false) : Grid.countP p (makeGrid numRows numCols z) = 0 := by
  unfold makeGrid
  induction numRows with
  | zero => simp [Grid.countP]
  | succ n ih =>
    rw [List.replicate_succ, Grid.countP, ih, List.countP_replicate]
    simp [hz]


/-! ## Loop rules -/

theorem forEach_append {ι σ : Type} (f : ι → σ → Except Fault σ) :
    ∀ (xs ys : List ι) (s : σ),
      forEach f (xs ++ ys) s =
        match forEach f xs s with
        | .ok s1 => forEach f ys s1
        | .error e => .error e
  | [], ys, s => by simp [forEach]
  | x :: xs, ys, s => by
    simp only [List.cons_append, forEach]
    cases f x s with
    | error e => rfl
    | ok s1 => exact forEach_append f xs ys s1

/-- Invariant rule for a loop `for k := 0; k < n; k++`. -/
theorem forEach_range {σ : Type} (f : Nat → σ → Except Fault σ) (I : Nat → σ → Prop) :
    ∀ (n : Nat) (s : σ), I 0 s →
      (∀ k, k < n → ∀ t, I k t → ∃ t1, f k t = .ok t1 ∧ I (k + 1) t1) →
      ∃ s1, forEach f (List.range n) s = .ok s1 ∧ I n s1
  | 0, s, h0, _ => ⟨s, by simp [forEach], h0⟩
  | n + 1, s, h0, hstep => by
    obtain ⟨s1, e1, i1⟩ :=
      forEach_range f I n s h0 (fun k hk t ht => hstep k (Nat.lt_succ_of_lt hk) t ht)
    obtain ⟨s2, e2, i2⟩ := hstep n (Nat.lt_succ_self n) s1 i1
    refine ⟨s2, ?_, i2⟩
    rw [List.range_succ, forEach_append, e1]
    simp [forEach, e2]

/-- Partial-correctness rule: what every successful round preserves, the
successful loop preserves. -/
theorem forEach_preserves {ι σ : Type} (f : ι → σ → Except Fault σ) (I : σ → Prop) :
    ∀ (xs : List ι) (s s1 : σ), I s →
      (∀ x, x ∈ xs → ∀ t t1, I t → f x t = .ok t1 → I t1) →
      forEach f xs s = .ok s1 → I s1
  | [], s, s1, h0, _, h => by
    simp only [forEach, Except.ok.injEq] at h
    exact h ▸ h0
  | x :: xs, s, s1, h0, hstep, h => by
    simp only [forEach] at h
    cases e : f x s with
    | error err => rw [e] at h; cases h
    | ok t =>
      rw [e] at h
      exact forEach_preserves f I xs t s1 (hstep x (List.mem_cons_self _ _) s t h0 e)
        (fun y hy => hstep y (List.mem_cons_of_mem _ hy)) h

/-! ## `countMines` -/

/-- The indicator the inner loops of `countMines` add for one neighbour. -/
theorem countStep_eq {numRows numCols : Nat} {board : Grid Int}
    (hw : Grid.WF numRows numCols board) (row col dr dc count : Int) :
    countStep numRows numCols board row col dr dc count =
      .ok (count + if isMineAt numRows numCols board (row + dr) (col + dc) then 1 else 0) := by
  unfold countStep isMineAt
  by_cases hb : inBounds numRows numCols (row + dr) (col + dc)
  · obtain ⟨v, hv⟩ := Grid.get_of_WF hw hb
    have hb1 := hb
    unfold inBounds at hb1
    simp only [hb1, and_self, if_true, hv]
    by_cases e : v = -1
    · simp [e, hb]
    · simp [e, hb]
  · have hb1 := hb
    unfold inBounds at hb1
    simp [hb1, hb]

theorem countAround_eq {numRows numCols : Nat} {board : Grid Int}
    (hw : Grid.WF numRows numCols board) (row col : Int)
    (hc : isMineAt numRows numCols board row col = false) :
    countAround numRows numCols board row col =
      .ok (adjacentMines numRows numCols board row col : Int) := by
  have h0 : isMineAt numRows numCols board (row + 0) (col + 0) = false := by simpa using hc
  unfold countAround offsets
  simp only [forEach, countStep_eq hw]
  rw [h0]
  have e : (adjacentMines numRows numCols board row col : Int) =
      (((((((((0 + if isMineAt numRows numCols board (row + -1) (col + -1) = true then 1 else 0) +
        if isMineAt numRows numCols board (row + -1) (col + 0) = true then 1 else 0) +
        if isMineAt numRows numCols board (row + -1) (col + 1) = true then 1 else 0) +
        if isMineAt numRows numCols board (row + 0) (col + -1) = true then 1 else 0) +
        0) +
        if isMineAt numRows numCols board (row + 0) (col + 1) = true then 1 else 0) +
        if isMineAt numRows numCols board (row + 1) (col + -1) = true then 1 else 0) +
        if isMineAt numRows numCols board (row + 1) (col + 0) = true then 1 else 0) +
        if isMineAt numRows numCols board (row + 1) (col + 1) = true then 1 else 0) := by
    unfold adjacentMines moore
    rw [List.countP_cons, List.countP_cons, List.countP_cons, List.countP_cons,
      List.countP_cons, List.countP_cons, List.countP_cons, List.countP_cons, List.countP_nil]
    simp only [Int.sub_eq_add_neg, Int.add_zero]
    push_cast
    ring
  rw [e]
  simp


theorem CountInv.isMineAt_eq {numRows numCols : Nat} {board0 b : Grid Int} {i j : Nat}
    (h : CountInv numRows numCols board0 i j b) (r c : Int) :
    isMineAt numRows numCols b r c = isMineAt numRows numCols board0 r c := by
  unfold isMineAt
  by_cases hb : inBounds numRows numCols r c
  · obtain ⟨h1, h2⟩ := h.2.2 r c hb
    by_cases hm : Grid.get board0 r c = some (-1)
    · simp [hb, hm, h1 hm]
    · have : Grid.get b r c ≠ some (-1) := by
        by_cases hd : r < i ∨ (r = i ∧ c < j)
        · rw [(h2 hm).1 hd]
          intro e
          have := Option.some.inj e
          omega
        · rw [(h2 hm).2 hd]; exact hm
      simp [hb, hm, this]
  · simp [hb]

theorem CountInv.adjacentMines_eq {numRows numCols : Nat} {board0 b : Grid Int} {i j : Nat}
    (h : CountInv numRows numCols board0 i j b) (row col : Int) :
    adjacentMines numRows numCols b row col = adjacentMines numRows numCols board0 row col := by
  unfold adjacentMines
  congr 1
  funext p
  exact h.isMineAt_eq p.1 p.2

theorem adjacentMines_le (numRows numCols : Nat) (board : Grid Int) (row col : Int) :
    adjacentMines numRows numCols board row col ≤ 8 := by
  unfold adjacentMines
  exact le_trans (List.countP_le_length _) (by simp [moore])

theorem countCell_step {numRows numCols : Nat} {board0 b : Grid Int} {i j : Nat}
    (h : CountInv numRows numCols board0 i j b) (hi : i < numRows) (hj : j < numCols) :
    ∃ b1, countCell numRows numCols i j b = .ok b1 ∧
      CountInv numRows numCols board0 i (j + 1) b1 := by
  have hb : inBounds numRows numCols i j := by unfold inBounds; omega
  obtain ⟨v, hv⟩ := Grid.get_of_WF h.1 hb
  have hnd : ¬ ((i : Int) < i ∨ ((i : Int) = i ∧ (j : Int) < j)) := by omega
  unfold countCell
  rw [hv]
  by_cases e : v = -1
  · subst e
    refine ⟨b, by simp, h.1, h.2.1, ?_⟩
    intro r c hrc
    obtain ⟨h1, h2⟩ := h.2.2 r c hrc
    refine ⟨h1, fun hm => ⟨fun hd => ?_, fun hd => ?_⟩⟩
    · by_cases e1 : r = i ∧ c = j
      · obtain ⟨rfl, rfl⟩ := e1
        rw [(h2 hm).2 hnd] at hv
        exact absurd hv hm
      · exact (h2 hm).1 (by omega)
    · exact (h2 hm).2 (by omega)
  · have hm0 : isMineAt numRows numCols b i j = false := by
      unfold isMineAt
      simp [hv, e]
    have hcnt := countAround_eq h.1 i j hm0
    rw [h.adjacentMines_eq] at hcnt
    obtain ⟨b1, hb1⟩ := Grid.set_of_get (adjacentMines numRows numCols board0 i j : Int) hv
    refine ⟨b1, by simp [e, hcnt, hb1], Grid.WF_set h.1 hb1, ?_, ?_⟩
    · have hc := Grid.countP_set (fun v => decide (v = -1)) hb1 hv
      have e2 : ¬ ((adjacentMines numRows numCols board0 i j : Int) = -1) := by omega
      simp only [e, e2, decide_False, Bool.false_eq_true, if_false, Nat.add_zero] at hc
      unfold mineCount
      rw [hc]
      exact h.2.1
    · intro r c hrc
      obtain ⟨h1, h2⟩ := h.2.2 r c hrc
      rw [Grid.get_set hb1]
      by_cases e1 : r = i ∧ c = j
      · obtain ⟨rfl, rfl⟩ := e1
        have hm : Grid.get board0 i j ≠ some (-1) := by
          intro hm
          rw [h1 hm] at hv
          exact e (Option.some.inj hv).symm
        rw [if_pos ⟨rfl, rfl⟩]
        refine ⟨fun hm1 => absurd hm1 hm, fun _ => ⟨fun _ => rfl, fun hd => ?_⟩⟩
        exact absurd (Or.inr ⟨rfl, by omega⟩) hd
      · rw [if_neg e1]
        refine ⟨h1, fun hm => ⟨fun hd => (h2 hm).1 (by omega), fun hd => (h2 hm).2 (by omega)⟩⟩

theorem countMines_inv {numRows numCols : Nat} {board : Grid Int}
    (hw : Grid.WF numRows numCols board) :
    ∃ out, countMines numRows numCols board = .ok out ∧
      CountInv numRows numCols board numRows 0 out := by
  unfold countMines
  refine forEach_range _ (fun i b => CountInv numRows numCols board i 0 b) numRows board ?_ ?_
  · refine ⟨hw, rfl, fun r c hrc => ⟨fun h => h, fun _ => ⟨fun hd => ?_, fun _ => rfl⟩⟩⟩
    unfold inBounds at hrc
    omega
  · intro i hi b hb
    obtain ⟨b1, e1, i1⟩ := forEach_range (fun (col : Nat) b1 => countCell numRows numCols i col b1)
      (fun j b => CountInv numRows numCols board i j b) numCols b hb
      (fun j hj t ht => countCell_step ht hi hj)
    refine ⟨b1, e1, i1.1, i1.2.1, ?_⟩
    intro r c hrc
    obtain ⟨h1, h2⟩ := i1.2.2 r c hrc
    unfold inBounds at hrc
    refine ⟨h1, fun hm => ⟨fun hd => (h2 hm).1 (by omega), fun hd => (h2 hm).2 (by omega)⟩⟩


theorem countMines_mines_iff {numRows numCols : Nat} {board out : Grid Int}
    (hw : Grid.WF numRows numCols board)
    (h : CountInv numRows numCols board numRows 0 out) (r c : Int) :
    Grid.get out r c = some (-1) ↔ Grid.get board r c = some (-1) := by
  by_cases hb : inBounds numRows numCols r c
  · obtain ⟨h1, h2⟩ := h.2.2 r c hb
    refine ⟨fun ho => ?_, h1⟩
    by_contra hm
    have hd : r < (numRows : Int) ∨ (r = (numRows : Int) ∧ c < ((0 : Nat) : Int)) :=
      Or.inl hb.2.1
    rw [(h2 hm).1 hd] at ho
    have := Option.some.inj ho
    omega
  · constructor
    · intro ho; exact absurd (Grid.inBounds_of_get h.1 ho) hb
    · intro ho; exact absurd (Grid.inBounds_of_get hw ho) hb

/-! ## Mine placement -/

theorem placeOne_spec {numRows numCols : Nat} :
    ∀ (samples rest : List (Int × Int)) (b b1 : Grid Int),
      Grid.WF numRows numCols b →
      placeOne numRows numCols samples b = .ok (b1, rest) →
      Grid.WF numRows numCols b1 ∧ mineCount b1 = mineCount b + 1
  | [], rest, b, b1, _, h => by
    unfold placeOne at h
    split at h <;> cases h
  | (row, col) :: tl, rest, b, b1, hw, h => by
    unfold placeOne at h
    split at h
    · cases h
    · cases hv : Grid.get b row col with
      | none => rw [hv] at h; cases h
      | some v =>
        rw [hv] at h
        by_cases e : v = 0
        · subst e
          simp only [if_true] at h
          cases hs : Grid.set b row col (-1) with
          | none => rw [hs] at h; cases h
          | some b2 =>
            rw [hs] at h
            simp only [Except.ok.injEq, Prod.mk.injEq] at h
            obtain ⟨rfl, -⟩ := h
            refine ⟨Grid.WF_set hw hs, ?_⟩
            have hc := Grid.countP_set (fun v => decide (v = -1)) hs hv
            simp at hc
            unfold mineCount
            omega
        · simp only [e, if_false] at h
          exact placeOne_spec tl rest b b1 hw h

theorem placeMines_spec {numRows numCols : Nat} :
    ∀ (n : Nat) (samples : List (Int × Int)) (b b1 : Grid Int),
      Grid.WF numRows numCols b →
      placeMines numRows numCols n samples b = .ok b1 →
      Grid.WF numRows numCols b1 ∧ mineCount b1 = mineCount b + n
  | 0, _, b, b1, hw, h => by
    simp only [placeMines, Except.ok.injEq] at h
    subst h
    exact ⟨hw, rfl⟩
  | n + 1, samples, b, b1, hw, h => by
    unfold placeMines at h
    cases hp : placeOne numRows numCols samples b with
    | error e => rw [hp] at h; cases h
    | ok pr =>
      obtain ⟨b2, rest⟩ := pr
      rw [hp] at h
      obtain ⟨hw2, hc2⟩ := placeOne_spec samples rest b b2 hw hp
      obtain ⟨hw1, hc1⟩ := placeMines_spec n rest b2 b1 hw2 h
      exact ⟨hw1, by omega⟩

/-- C1: on every `numRows x numCols` grid (so in particular on the grids of
`0` and `-1` left by mine placement) `countMines` returns, keeps every `-1`
tile at `-1` and writes into every other tile the number of `-1` tiles among
its in-bounds Moore neighbours in the input grid, a number in `0..8`; the
counts written earlier in the same pass do not disturb later ones. -/
theorem countMines_adjacency (numRows numCols : Nat) (board : Grid Int)
    (hw : Grid.WF numRows numCols board) :
    ∃ out, countMines numRows numCols board = .ok out ∧ Grid.WF numRows numCols out ∧
      ∀ r c : Int, inBounds numRows numCols r c →
        (Grid.get board r c = some (-1) → Grid.get out r c = some (-1)) ∧
        (Grid.get board r c ≠ some (-1) →
          Grid.get out r c = some (adjacentMines numRows numCols board r c : Int) ∧
          adjacentMines numRows numCols board r c ≤ 8) := by
  obtain ⟨out, e, hinv⟩ := countMines_inv hw
  refine ⟨out, e, hinv.1, fun r c hb => ?_⟩
  obtain ⟨h1, h2⟩ := hinv.2.2 r c hb
  refine ⟨h1, fun hm => ⟨(h2 hm).1 (Or.inl hb.2.1), adjacentMines_le _ _ _ _ _⟩⟩

theorem countMines_adjacency_witness :
    Grid.WF 3 3 [[-1, 0, 0], [0, 0, 0], [0, 0, -1]] ∧
    countMines 3 3 [[-1, 0, 0], [0, 0, 0], [0, 0, -1]] =
      .ok [[-1, 1, 0], [1, 2, 1], [0, 1, -1]] ∧
    ∃ out, countMines 3 3 [[-1, 0, 0], [0, 0, 0], [0, 0, -1]] = .ok out ∧ Grid.WF 3 3 out ∧
      ∀ r c : Int, inBounds 3 3 r c →
        (Grid.get [[-1, 0, 0], [0, 0, 0], [0, 0, -1]] r c = some (-1) →
          Grid.get out r c = some (-1)) ∧
        (Grid.get [[-1, 0, 0], [0, 0, 0], [0, 0, -1]] r c ≠ some (-1) →
          Grid.get out r c =
            some (adjacentMines 3 3 [[-1, 0, 0], [0, 0, 0], [0, 0, -1]] r c : Int) ∧
          adjacentMines 3 3 [[-1, 0, 0], [0, 0, 0], [0, 0, -1]] r c ≤ 8) :=
  ⟨by decide, by decide, countMines_adjacency 3 3 _ (by decide)⟩

/-- C5: whatever samples the random source delivers, when the placement loop
of `restart` / `main` finishes on the freshly zeroed grid, exactly `numMines`
tiles hold `-1`; the following `countMines` returns, and exactly the same
tiles, again `numMines` of them, hold `-1` afterwards; this is the board
`restart` installs. -/
theorem placement_mine_count (numRows numCols numMines : Nat) (samples : List (Int × Int))
    (placed : Grid Int)
    (h : placeMines numRows numCols numMines samples (makeGrid numRows numCols 0) =
      .ok placed) :
    mineCount placed = numMines ∧
    ∃ board, countMines numRows numCols placed = .ok board ∧
      mineCount board = numMines ∧
      (∀ r c : Int, Grid.get board r c = some (-1) ↔ Grid.get placed r c = some (-1)) ∧
      ∀ g : Game, ∃ g1, restart numRows numCols numMines samples g = .ok g1 ∧
        g1.board = board := by
  obtain ⟨hw, hc⟩ := placeMines_spec numMines samples _ placed (makeGrid_WF numRows numCols 0) h
  have hz : mineCount (makeGrid numRows numCols (0 : Int)) = 0 :=
    makeGrid_countP _ numRows numCols 0 (by decide)
  rw [hz, Nat.zero_add] at hc
  obtain ⟨out, e, hinv⟩ := countMines_inv hw
  refine ⟨hc, out, e, by rw [hinv.2.1, hc], countMines_mines_iff hw hinv, fun g => ?_⟩
  unfold restart
  rw [h]
  simp only [e]
  exact ⟨_, rfl, rfl⟩

theorem placement_mine_count_witness :
    placeMines 2 3 2 [(0, 1), (0, 1), (1, 2)] (makeGrid 2 3 0) = .ok [[0, -1, 0], [0, 0, -1]] ∧
    mineCount [[0, -1, 0], [0, 0, -1]] = 2 ∧
    ∃ board, countMines 2 3 [[0, -1, 0], [0, 0, -1]] = .ok board ∧
      mineCount board = 2 ∧
      (∀ r c : Int, Grid.get board r c = some (-1) ↔
        Grid.get [[0, -1, 0], [0, 0, -1]] r c = some (-1)) ∧
      ∀ g : Game, ∃ g1, restart 2 3 2 [(0, 1), (0, 1), (1, 2)] g = .ok g1 ∧
        g1.board = board :=
  ⟨by decide, placement_mine_count 2 3 2 [(0, 1), (0, 1), (1, 2)] _ (by decide)⟩


/-! ## Nested loops as one loop over pairs -/

theorem forEach_map {ι κ σ : Type} (f : κ → σ → Except Fault σ) (h : ι → κ) :
    ∀ (xs : List ι) (s : σ), forEach f (List.map h xs) s = forEach (fun x t => f (h x) t) xs s
  | [], s => rfl
  | x :: xs, s => by
    simp only [List.map_cons, forEach]
    cases f (h x) s with
    | error e => rfl
    | ok s1 => exact forEach_map f h xs s1

theorem forEach_product {ι κ σ : Type} (f : ι → κ → σ → Except Fault σ) (ys : List κ) :
    ∀ (xs : List ι) (s : σ),
      forEach (fun x s1 => forEach (fun y s2 => f x y s2) ys s1) xs s =
        forEach (fun p t => f p.1 p.2 t) (xs ×ˢ ys) s
  | [], s => rfl
  | x :: xs, s => by
    rw [List.product_cons, forEach_append, forEach_map]
    simp only [forEach]
    cases forEach (fun y s2 => f x y s2) ys s with
    | error e => rfl
    | ok s1 => exact forEach_product f ys xs s1

theorem mem_offsets_product (dr dc : Int) :
    (dr, dc) ∈ offsets ×ˢ offsets ↔ (-1 ≤ dr ∧ dr ≤ 1) ∧ (-1 ≤ dc ∧ dc ≤ 1) := by
  rw [List.mem_product]
  simp only [offsets, List.mem_cons, List.mem_singleton, List.not_mem_nil, or_false]
  omega

/-- Total-correctness rule with a post-condition per round: `I` is kept,
round `x` establishes `Q x`, and no round destroys an established `Q`. -/
theorem forEach_rule {ι σ : Type} (f : ι → σ → Except Fault σ) (I : σ → Prop)
    (Q : ι → σ → Prop) :
    ∀ (xs : List ι) (s : σ), I s →
      (∀ x, x ∈ xs → ∀ t, I t →
        ∃ t1, f x t = .ok t1 ∧ I t1 ∧ Q x t1 ∧ ∀ y, Q y t → Q y t1) →
      ∃ s1, forEach f xs s = .ok s1 ∧ I s1 ∧ (∀ y, Q y s → Q y s1) ∧ ∀ x, x ∈ xs → Q x s1
  | [], s, h0, _ => ⟨s, rfl, h0, fun _ h => h, fun _ h => absurd h (List.not_mem_nil _)⟩
  | x :: xs, s, h0, hstep => by
    obtain ⟨t1, e1, i1, q1, p1⟩ := hstep x (List.mem_cons_self _ _) s h0
    obtain ⟨s2, e2, i2, p2, q2⟩ :=
      forEach_rule f I Q xs t1 i1 (fun y hy t ht => hstep y (List.mem_cons_of_mem _ hy) t ht)
    refine ⟨s2, by simp [forEach, e1, e2], i2, fun y hy => p2 y (p1 y hy), ?_⟩
    intro y hy
    rcases List.mem_cons.1 hy with rfl | hy
    · exact p2 _ q1
    · exact q2 y hy

/-! ## The flood fill -/

theorem Ext.refl {numRows numCols : Nat} (S : Int → Int → Prop) {g : Game}
    (hw : Grid.WF numRows numCols g.revealed) : Ext numRows numCols S g g :=
  { board := rfl, flagged := rfl, gameWon := rfl, restartBtn := rfl, exitBtn := rfl
    wf := hw, count := le_refl _, mono := fun _ _ h => h
    closure := fun _ _ _ _ h hn _ _ _ => absurd h hn
    sound := fun _ _ h hn => absurd h hn
    overMono := fun h => h
    overCause := fun h => Or.inl h }

theorem Ext.weaken {numRows numCols : Nat} {S S1 : Int → Int → Prop} {g t : Game}
    (h : Ext numRows numCols S g t) (hS : ∀ x y, S x y → S1 x y) :
    Ext numRows numCols S1 g t :=
  { board := h.board, flagged := h.flagged, gameWon := h.gameWon
    restartBtn := h.restartBtn, exitBtn := h.exitBtn
    wf := h.wf, count := h.count, mono := h.mono, closure := h.closure
    sound := fun x y h1 h2 => hS x y (h.sound x y h1 h2)
    overMono := h.overMono, overCause := h.overCause }

theorem Ext.trans {numRows numCols : Nat} {S : Int → Int → Prop} {g t u : Game}
    (h1 : Ext numRows numCols S g t) (h2 : Ext numRows numCols S t u) :
    Ext numRows numCols S g u :=
  { board := h2.board.trans h1.board
    flagged := h2.flagged.trans h1.flagged
    gameWon := h2.gameWon.trans h1.gameWon
    restartBtn := h2.restartBtn.trans h1.restartBtn
    exitBtn := h2.exitBtn.trans h1.exitBtn
    wf := h2.wf
    count := le_trans h2.count h1.count
    mono := fun x y h => h2.mono x y (h1.mono x y h)
    closure := by
      intro x y x1 y1 hu hg hz ha hb
      by_cases ht : Rev t x y
      · exact h2.mono _ _ (h1.closure x y x1 y1 ht hg hz ha hb)
      · exact h2.closure x y x1 y1 hu ht (by rw [h1.board]; exact hz) ha hb
    sound := by
      intro x y hu hg
      by_cases ht : Rev t x y
      · exact h1.sound x y ht hg
      · exact h2.sound x y hu ht
    overMono := fun h => h2.overMono (h1.overMono h)
    overCause := by
      intro h
      rcases h2.overCause h with h3 | ⟨x, y, hu, ht, hm⟩
      · rcases h1.overCause h3 with h4 | ⟨x, y, ht, hg, hm⟩
        · exact Or.inl h4
        · exact Or.inr ⟨x, y, h2.mono x y ht, hg, hm⟩
      · exact Or.inr ⟨x, y, hu, fun hg => ht (h1.mono x y hg), by rw [← h1.board]; exact hm⟩ }

theorem ZeroPath.extend {numRows numCols : Nat} {board : Grid Int} {r c r1 c1 zx zy : Int}
    (h0 : ZeroPath numRows numCols board r c r c) (ha : Adj r c r1 c1)
    (h : ZeroPath numRows numCols board r1 c1 zx zy) :
    ZeroPath numRows numCols board r c zx zy := by
  induction h with
  | start hb hz => exact ZeroPath.step h0 ha hb hz
  | step _ ha1 hb hz ih => exact ZeroPath.step ih ha1 hb hz

theorem Sound.sub {numRows numCols : Nat} {board : Grid Int} {r c r1 c1 : Int}
    (h0 : ZeroPath numRows numCols board r c r c) (ha : Adj r c r1 c1) (x y : Int)
    (h : Sound numRows numCols board r1 c1 x y) : SoundZ numRows numCols board r c x y := by
  rcases h with ⟨rfl, rfl⟩ | ⟨zx, zy, hz, hadj⟩
  · exact ⟨r, c, h0, ha⟩
  · exact ⟨zx, zy, ZeroPath.extend h0 ha hz, hadj⟩


theorem unrevealed_mark {g : Game} (g1 : Game) {r c : Int}
    (hv : Grid.get g.revealed r c = some false)
    (hs : Grid.set g.revealed r c true = some g1.revealed) :
    unrevealed g1 + 1 = unrevealed g := by
  have h := Grid.countP_set (fun b => !b) hs hv
  simpa [unrevealed] using h

theorem Rev_of_mark {g : Game} (g1 : Game) {r c : Int}
    (hs : Grid.set g.revealed r c true = some g1.revealed) (x y : Int) :
    Rev g1 x y ↔ (x = r ∧ y = c) ∨ Rev g x y := by
  unfold Rev
  rw [Grid.get_set hs]
  by_cases e : x = r ∧ y = c
  · simp [e]
  · simp [e]

theorem RevealSpec_of_mark {numRows numCols : Nat} {g : Game} (g1 : Game) {t : Game} {r c v : Int}
    (hv : Grid.get g.revealed r c = some false)
    (hs : Grid.set g.revealed r c true = some g1.revealed)
    (hbv : Grid.get g.board r c = some v)
    (hboard : g1.board = g.board) (hfl : g1.flagged = g.flagged)
    (hwon : g1.gameWon = g.gameWon) (hrb : g1.restartBtn = g.restartBtn)
    (heb : g1.exitBtn = g.exitBtn)
    (hov1 : g.gameOver = true → g1.gameOver = true)
    (hov2 : g1.gameOver = true → g.gameOver = true ∨ v = -1)
    (hext : Ext numRows numCols (SoundZ numRows numCols g.board r c) g1 t)
    (hcl : v = 0 → ∀ x1 y1, Adj r c x1 y1 → inBounds numRows numCols x1 y1 → Rev t x1 y1) :
    RevealSpec numRows numCols g r c t := by
  have hnr : ¬ Rev g r c := by unfold Rev; rw [hv]; simp
  have hm := Rev_of_mark g1 hs
  have htr : Rev t r c := hext.mono r c ((hm r c).2 (Or.inl ⟨rfl, rfl⟩))
  refine ⟨?_, fun _ => htr⟩
  exact
  { board := hext.board.trans hboard
    flagged := hext.flagged.trans hfl
    gameWon := hext.gameWon.trans hwon
    restartBtn := hext.restartBtn.trans hrb
    exitBtn := hext.exitBtn.trans heb
    wf := hext.wf
    count := by
      have h1 := hext.count
      have h2 := unrevealed_mark g1 hv hs
      omega
    mono := fun x y h => hext.mono x y ((hm x y).2 (Or.inr h))
    closure := by
      intro x y x1 y1 ht hg hz ha hb
      by_cases e : x = r ∧ y = c
      · obtain ⟨rfl, rfl⟩ := e
        rw [hbv] at hz
        exact hcl (Option.some.inj hz) x1 y1 ha hb
      · have h1 : ¬ Rev g1 x y := fun h => by
          rcases (hm x y).1 h with h2 | h2
          · exact e h2
          · exact hg h2
        exact hext.closure x y x1 y1 ht h1 (by rw [hboard]; exact hz) ha hb
    sound := by
      intro x y ht hg
      by_cases e : x = r ∧ y = c
      · exact Or.inl e
      · have h1 : ¬ Rev g1 x y := fun h => by
          rcases (hm x y).1 h with h2 | h2
          · exact e h2
          · exact hg h2
        exact Or.inr (hext.sound x y ht h1)
    overMono := fun h => hext.overMono (hov1 h)
    overCause := by
      intro h
      rcases hext.overCause h with h1 | ⟨x, y, ht, h1, hmine⟩
      · rcases hov2 h1 with h2 | h2
        · exact Or.inl h2
        · exact Or.inr ⟨r, c, htr, hnr, by rw [hbv, h2]⟩
      · refine Or.inr ⟨x, y, ht, fun hg => h1 ((hm x y).2 (Or.inr hg)), ?_⟩
        rw [← hboard]; exact hmine }

/-- Total correctness of `revealTile`: with more fuel than unrevealed tiles
the call returns, and the result extends the state as `RevealSpec` says. -/
theorem revealTile_spec {numRows numCols : Nat} :
    ∀ (fuel : Nat) (g : Game) (r c : Int),
      Grid.WF numRows numCols g.board → Grid.WF numRows numCols g.revealed →
      unrevealed g < fuel →
      ∃ t, revealTile numRows numCols fuel g r c = .ok t ∧ RevealSpec numRows numCols g r c t
  | 0, _, _, _, _, _, hf => absurd hf (Nat.not_lt_zero _)
  | fuel + 1, g, r, c, hwb, hwr, hf => by
    rw [revealTile]
    by_cases hb : inBounds numRows numCols r c
    · have hcond : ¬ (r < 0 ∨ r ≥ numRows ∨ c < 0 ∨ c ≥ numCols) := by
        unfold inBounds at hb; omega
      rw [if_neg hcond]
      obtain ⟨b, hv⟩ := Grid.get_of_WF hwr hb
      cases b with
      | true =>
        simp only [hv]
        exact ⟨g, rfl, Ext.refl _ hwr, fun _ => hv⟩
      | false =>
        obtain ⟨rev1, hs⟩ := Grid.set_of_get true hv
        obtain ⟨v, hbv⟩ := Grid.get_of_WF hwb hb
        simp only [hv, hs, hbv]
        have hw1 : Grid.WF numRows numCols rev1 := Grid.WF_set hwr hs
        by_cases e1 : v = -1
        · rw [if_pos e1]
          refine ⟨_, rfl, ?_⟩
          exact RevealSpec_of_mark { g with revealed := rev1, gameOver := true }
            hv hs hbv rfl rfl rfl rfl rfl (fun _ => rfl) (fun _ => Or.inr e1)
            (Ext.refl _ hw1) (fun e0 => by omega)
        · rw [if_neg e1]
          by_cases e0 : v = 0
          · rw [if_pos e0]
            rw [forEach_product
              (fun dr dc g2 => revealTile numRows numCols fuel g2 (r + dr) (c + dc))]
            have hz0 : ZeroPath numRows numCols g.board r c r c :=
              ZeroPath.start hb (by rw [hbv, e0])
            have hcnt : unrevealed ({ g with revealed := rev1 } : Game) + 1 = unrevealed g :=
              unrevealed_mark { g with revealed := rev1 } hv hs
            obtain ⟨s1, es, is1, -, qs⟩ := forEach_rule
              (fun (p : Int × Int) t => revealTile numRows numCols fuel t (r + p.1) (c + p.2))
              (fun t => Ext numRows numCols (SoundZ numRows numCols g.board r c)
                { g with revealed := rev1 } t)
              (fun p t => inBounds numRows numCols (r + p.1) (c + p.2) →
                Rev t (r + p.1) (c + p.2))
              (offsets ×ˢ offsets) { g with revealed := rev1 } (Ext.refl _ hw1)
              (by
                intro p hp t ht
                have hp1 := (mem_offsets_product p.1 p.2).1 hp
                have hwt : Grid.WF numRows numCols t.board := by rw [ht.board]; exact hwb
                have hft : unrevealed t < fuel := by
                  have := ht.count
                  omega
                obtain ⟨t1, et, ⟨ext1, tgt1⟩⟩ :=
                  revealTile_spec fuel t (r + p.1) (c + p.2) hwt ht.wf hft
                refine ⟨t1, et, ht.trans (ext1.weaken ?_), tgt1,
                  fun y hq hby => ext1.mono _ _ (hq hby)⟩
                intro x y hxy
                rw [ht.board] at hxy
                exact Sound.sub hz0 (by unfold Adj; omega) x y hxy)
            refine ⟨s1, es, ?_⟩
            refine RevealSpec_of_mark { g with revealed := rev1 }
              hv hs hbv rfl rfl rfl rfl rfl (fun h => h) (fun h => Or.inl h) is1 ?_
            intro _ x1 y1 ha hb1
            have hmem : (x1 - r, y1 - c) ∈ offsets ×ˢ offsets :=
              (mem_offsets_product _ _).2 (by unfold Adj at ha; omega)
            have hq := qs _ hmem
            simp only [add_sub_cancel] at hq
            exact hq hb1
          · rw [if_neg e0]
            refine ⟨_, rfl, ?_⟩
            exact RevealSpec_of_mark { g with revealed := rev1 }
              hv hs hbv rfl rfl rfl rfl rfl (fun h => h) (fun h => Or.inl h)
              (Ext.refl _ hw1) (fun h => absurd h e0)
    · have hcond : r < 0 ∨ r ≥ numRows ∨ c < 0 ∨ c ≥ numCols := by
        unfold inBounds at hb; omega
      rw [if_pos hcond]
      exact ⟨g, rfl, Ext.refl _ hwr, fun h => absurd h hb⟩


/-! ## The ghost counter -/

theorem forEach_erase {ι : Type} (f : ι → Game → Except Fault Game)
    (f1 : ι → Game × Nat → Except Fault (Game × Nat))
    (h : ∀ x s, eraseCount (f1 x s) = f x s.1) :
    ∀ (xs : List ι) (s : Game × Nat), eraseCount (forEach f1 xs s) = forEach f xs s.1
  | [], (g, n) => rfl
  | x :: xs, s => by
    have hx := h x s
    simp only [forEach]
    cases e : f1 x s with
    | error err =>
      rw [e] at hx
      simp only [eraseCount] at hx
      rw [← hx]
      rfl
    | ok s1 =>
      obtain ⟨g1, n1⟩ := s1
      rw [e] at hx
      simp only [eraseCount] at hx
      rw [← hx]
      exact forEach_erase f f1 h xs (g1, n1)

theorem revealTileCount_erase (numRows numCols : Nat) :
    ∀ (fuel : Nat) (s : Game × Nat) (r c : Int),
      eraseCount (revealTileCount numRows numCols fuel s r c) =
        revealTile numRows numCols fuel s.1 r c
  | 0, _, _, _ => rfl
  | fuel + 1, (g, n), r, c => by
    rw [revealTileCount, revealTile]
    by_cases hcond : r < 0 ∨ r ≥ numRows ∨ c < 0 ∨ c ≥ numCols
    · rw [if_pos hcond, if_pos hcond]; rfl
    · rw [if_neg hcond, if_neg hcond]
      cases hv : Grid.get g.revealed r c with
      | none => rfl
      | some b =>
        cases b with
        | true => rfl
        | false =>
          simp only []
          cases hs : Grid.set g.revealed r c true with
          | none => rfl
          | some rev1 =>
            simp only []
            cases hbv : Grid.get g.board r c with
            | none => rfl
            | some v =>
              simp only []
              by_cases e1 : v = -1
              · rw [if_pos e1, if_pos e1]; rfl
              · rw [if_neg e1, if_neg e1]
                by_cases e0 : v = 0
                · rw [if_pos e0, if_pos e0]
                  exact forEach_erase _ _
                    (fun dr s1 => forEach_erase _ _
                      (fun dc s2 => revealTileCount_erase numRows numCols fuel s2 (r + dr) (c + dc))
                      offsets s1)
                    offsets _
                · rw [if_neg e0, if_neg e0]; rfl

theorem revealTileCount_sum {numRows numCols : Nat} :
    ∀ (fuel : Nat) (s s1 : Game × Nat) (r c : Int),
      revealTileCount numRows numCols fuel s r c = .ok s1 →
      s1.2 + unrevealed s1.1 = s.2 + unrevealed s.1
  | 0, _, _, _, _, h => by cases h
  | fuel + 1, (g, n), s1, r, c, h => by
    rw [revealTileCount] at h
    by_cases hcond : r < 0 ∨ r ≥ numRows ∨ c < 0 ∨ c ≥ numCols
    · rw [if_pos hcond] at h
      cases h; rfl
    · rw [if_neg hcond] at h
      cases hv : Grid.get g.revealed r c with
      | none => rw [hv] at h; cases h
      | some b =>
        rw [hv] at h
        cases b with
        | true => cases h; rfl
        | false =>
          simp only [] at h
          cases hs : Grid.set g.revealed r c true with
          | none => rw [hs] at h; cases h
          | some rev1 =>
            rw [hs] at h
            simp only [] at h
            have hm : unrevealed ({ g with revealed := rev1 } : Game) + 1 = unrevealed g :=
              unrevealed_mark { g with revealed := rev1 } hv hs
            cases hbv : Grid.get g.board r c with
            | none => rw [hbv] at h; cases h
            | some v =>
              rw [hbv] at h
              simp only [] at h
              by_cases e1 : v = -1
              · rw [if_pos e1] at h
                cases h
                have hm1 : unrevealed ({ g with revealed := rev1, gameOver := true } : Game)
                    + 1 = unrevealed g :=
                  unrevealed_mark { g with revealed := rev1, gameOver := true } hv hs
                simp only []
                omega
              · rw [if_neg e1] at h
                by_cases e0 : v = 0
                · rw [if_pos e0] at h
                  have hI := forEach_preserves _
                    (fun (t : Game × Nat) => t.2 + unrevealed t.1 = n + unrevealed g)
                    offsets ({ g with revealed := rev1 }, n + 1) s1
                    (by simp only []; omega)
                    (fun dr _ t t1 ht h1 => forEach_preserves _
                      (fun (t : Game × Nat) => t.2 + unrevealed t.1 = n + unrevealed g)
                      offsets t t1 ht
                      (fun dc _ u u1 hu h2 => by
                        have := revealTileCount_sum fuel u u1 (r + dr) (c + dc) h2
                        simp only [] at hu ⊢
                        omega) h1) h
                  exact hI
                · rw [if_neg e0] at h
                  cases h
                  simp only []
                  omega

/-- C3: for every `numRows x numCols` board and revealed grid and every
`(row, col)`, in or out of the grid, negative or not, `revealTile` returns
once the fuel exceeds the number of unrevealed tiles, although its offset
sweep calls it on the tile itself; the calls that pass the guard and mark a
tile number exactly the tiles newly revealed, so at most the tiles that were
unrevealed before the call and at most `numRows * numCols`. -/
theorem revealTile_terminates (numRows numCols fuel : Nat) (g : Game) (row col : Int)
    (hwb : Grid.WF numRows numCols g.board) (hwr : Grid.WF numRows numCols g.revealed)
    (hf : unrevealed g < fuel) :
    ∃ t n, revealTileCount numRows numCols fuel (g, 0) row col = .ok (t, n) ∧
      revealTile numRows numCols fuel g row col = .ok t ∧
      n + unrevealed t = unrevealed g ∧ n ≤ unrevealed g ∧
      unrevealed g ≤ numRows * numCols := by
  obtain ⟨t, et, -⟩ := revealTile_spec fuel g row col hwb hwr hf
  have he := revealTileCount_erase numRows numCols fuel (g, 0) row col
  cases hc : revealTileCount numRows numCols fuel (g, 0) row col with
  | error err =>
    rw [hc] at he
    simp only [eraseCount] at he
    rw [et] at he
    cases he
  | ok s1 =>
    obtain ⟨t1, n⟩ := s1
    rw [hc] at he
    simp only [eraseCount] at he
    rw [et] at he
    have e1 : t1 = t := by injection he
    subst e1
    have hs := revealTileCount_sum fuel (g, 0) (t1, n) row col hc
    simp only [Nat.zero_add] at hs
    exact ⟨t1, n, rfl, et, hs, by omega, Grid.countP_le_of_WF _ hwr⟩

theorem revealTile_terminates_witness :
    Grid.WF 3 3 [[-1, 1, 0], [1, 1, 0], [0, 0, 0]] ∧
    Grid.WF 3 3 (makeGrid 3 3 false) ∧
    unrevealed (freshGame 3 3 [[-1, 1, 0], [1, 1, 0], [0, 0, 0]]) < 10 ∧
    ∃ t n, revealTileCount 3 3 10 (freshGame 3 3 [[-1, 1, 0], [1, 1, 0], [0, 0, 0]], 0) 2 2 =
        .ok (t, n) ∧
      revealTile 3 3 10 (freshGame 3 3 [[-1, 1, 0], [1, 1, 0], [0, 0, 0]]) 2 2 = .ok t ∧
      n + unrevealed t = unrevealed (freshGame 3 3 [[-1, 1, 0], [1, 1, 0], [0, 0, 0]]) ∧
      n ≤ unrevealed (freshGame 3 3 [[-1, 1, 0], [1, 1, 0], [0, 0, 0]]) ∧
      unrevealed (freshGame 3 3 [[-1, 1, 0], [1, 1, 0], [0, 0, 0]]) ≤ 3 * 3 :=
  ⟨by decide, by decide, by decide,
    revealTile_terminates 3 3 10 (freshGame 3 3 [[-1, 1, 0], [1, 1, 0], [0, 0, 0]]) 2 2
      (by decide) (by decide) (by decide)⟩

/-! ## Monotonicity of `revealed` -/

theorem revealTile_mono {numRows numCols : Nat} :
    ∀ (fuel : Nat) (g t : Game) (r c : Int),
      revealTile numRows numCols fuel g r c = .ok t → ∀ x y, Rev g x y → Rev t x y
  | 0, _, _, _, _, h => by cases h
  | fuel + 1, g, t, r, c, h => by
    rw [revealTile] at h
    by_cases hcond : r < 0 ∨ r ≥ numRows ∨ c < 0 ∨ c ≥ numCols
    · rw [if_pos hcond] at h
      cases h
      exact fun _ _ hx => hx
    · rw [if_neg hcond] at h
      cases hv : Grid.get g.revealed r c with
      | none => rw [hv] at h; cases h
      | some b =>
        rw [hv] at h
        cases b with
        | true => cases h; exact fun _ _ hx => hx
        | false =>
          simp only [] at h
          cases hs : Grid.set g.revealed r c true with
          | none => rw [hs] at h; cases h
          | some rev1 =>
            rw [hs] at h
            simp only [] at h
            have hm : ∀ x y, Rev g x y → Rev ({ g with revealed := rev1 } : Game) x y :=
              fun x y hx => (Rev_of_mark { g with revealed := rev1 } hs x y).2 (Or.inr hx)
            cases hbv : Grid.get g.board r c with
            | none => rw [hbv] at h; cases h
            | some v =>
              rw [hbv] at h
              simp only [] at h
              by_cases e1 : v = -1
              · rw [if_pos e1] at h
                cases h
                exact hm
              · rw [if_neg e1] at h
                by_cases e0 : v = 0
                · rw [if_pos e0] at h
                  exact forEach_preserves _
                    (fun (u : Game) => ∀ x y, Rev g x y → Rev u x y)
                    offsets { g with revealed := rev1 } t hm
                    (fun dr _ u u1 hu h1 => forEach_preserves _
                      (fun (w : Game) => ∀ x y, Rev g x y → Rev w x y)
                      offsets u u1 hu
                      (fun dc _ w w1 hw h2 x y hx =>
                        revealTile_mono fuel w w1 (r + dr) (c + dc) h2 x y (hw x y hx)) h1) h
                · rw [if_neg e0] at h
                  cases h
                  exact hm

theorem flag_revealed {g t : Game} {row col : Int} (h : flag g row col = .ok t) :
    t.revealed = g.revealed ∧ t.board = g.board ∧ t.gameOver = g.gameOver ∧
      t.gameWon = g.gameWon := by
  unfold flag at h
  cases hv : Grid.get g.revealed row col with
  | none => rw [hv] at h; cases h
  | some b =>
    rw [hv] at h
    cases b with
    | true => cases h; exact ⟨rfl, rfl, rfl, rfl⟩
    | false =>
      simp only [] at h
      cases hf : Grid.get g.flagged row col with
      | none => rw [hf] at h; cases h
      | some f =>
        rw [hf] at h
        simp only [] at h
        cases hs : Grid.set g.flagged row col (!f) with
        | none => rw [hs] at h; cases h
        | some fl =>
          rw [hs] at h
          cases h
          exact ⟨rfl, rfl, rfl, rfl⟩

theorem runOp_mono {numRows numCols fuel : Nat} {g t : Game} {op : Op}
    (h : runOp numRows numCols fuel g op = .ok t) : ∀ x y, Rev g x y → Rev t x y := by
  cases op with
  | reveal row col => exact revealTile_mono fuel g t row col h
  | flag row col =>
    intro x y hx
    unfold Rev
    rw [(flag_revealed h).1]
    exact hx

/-- C8: a tile that is revealed stays revealed: after every call of
`revealTile` and every call of `flag` that returns, and so after every
sequence of such calls on one board. The state, the coordinates and the
grids are arbitrary. -/
theorem revealed_monotone (numRows numCols fuel : Nat) (g : Game) (x y : Int)
    (hx : Grid.get g.revealed x y = some true) :
    (∀ (row col : Int) (t : Game), revealTile numRows numCols fuel g row col = .ok t →
      Grid.get t.revealed x y = some true) ∧
    (∀ (row col : Int) (t : Game), flag g row col = .ok t →
      Grid.get t.revealed x y = some true) ∧
    (∀ (ops : List Op) (t : Game), runOps numRows numCols fuel ops g = .ok t →
      Grid.get t.revealed x y = some true) := by
  refine ⟨fun row col t h => revealTile_mono fuel g t row col h x y hx,
    fun row col t h => by rw [(flag_revealed h).1]; exact hx, fun ops t h => ?_⟩
  exact forEach_preserves _ (fun (u : Game) => Rev u x y) ops g t hx
    (fun op _ u u1 hu h1 => runOp_mono h1 x y hu) h

theorem revealed_monotone_witness :
    Grid.get [[false, true], [false, false]] 0 1 = some true ∧
    revealTile 2 2 5
      { freshGame 2 2 [[-1, 1], [1, 1]] with revealed := [[false, true], [false, false]] }
      1 1 =
      .ok { freshGame 2 2 [[-1, 1], [1, 1]] with revealed := [[false, true], [false, true]] } ∧
    Grid.get [[false, true], [false, true]] 0 1 = some true :=
  ⟨by decide, by decide,
    (revealed_monotone 2 2 5
      { freshGame 2 2 [[-1, 1], [1, 1]] with revealed := [[false, true], [false, false]] }
      0 1 (by decide)).1 1 1
      { freshGame 2 2 [[-1, 1], [1, 1]] with revealed := [[false, true], [false, true]] }
      (by decide)⟩

/-! ## The revealed region -/

theorem ZeroPath.zero {numRows numCols : Nat} {board : Grid Int} {r c x y : Int}
    (h : ZeroPath numRows numCols board r c x y) :
    Grid.get board x y = some 0 ∧ inBounds numRows numCols x y := by
  cases h with
  | start hb hz => exact ⟨hz, hb⟩
  | step _ _ hb hz => exact ⟨hz, hb⟩

theorem mem_moore (x y x1 y1 : Int) :
    (x1, y1) ∈ moore x y ↔ Adj x y x1 y1 ∧ ¬ (x1 = x ∧ y1 = y) := by
  unfold moore Adj
  simp only [List.mem_cons, List.mem_singleton, List.not_mem_nil, or_false, Prod.mk.injEq]
  omega

theorem countMines_board_WF {numRows numCols : Nat} {board0 board : Grid Int}
    (hw0 : Grid.WF numRows numCols board0)
    (hcm : countMines numRows numCols board0 = .ok board) :
    CountInv numRows numCols board0 numRows 0 board := by
  obtain ⟨out, e, hinv⟩ := countMines_inv hw0
  rw [e] at hcm
  have : out = board := by injection hcm
  rw [← this]
  exact hinv

theorem countMines_consistent {numRows numCols : Nat} {board0 board : Grid Int}
    (hw0 : Grid.WF numRows numCols board0)
    (hinv : CountInv numRows numCols board0 numRows 0 board) :
    Consistent numRows numCols board := by
  intro x y x1 y1 hz ha hb1 hm
  have hb : inBounds numRows numCols x y := Grid.inBounds_of_get hinv.1 hz
  have hm0 : Grid.get board0 x1 y1 = some (-1) := (countMines_mines_iff hw0 hinv x1 y1).1 hm
  have hnm : Grid.get board0 x y ≠ some (-1) := by
    intro h1
    rw [(hinv.2.2 x y hb).1 h1] at hz
    cases hz
  have hadj := ((hinv.2.2 x y hb).2 hnm).1 (Or.inl hb.2.1)
  rw [hz] at hadj
  have h0 : adjacentMines numRows numCols board0 x y = 0 := by
    have := Option.some.inj hadj
    omega
  by_cases e : x1 = x ∧ y1 = y
  · obtain ⟨rfl, rfl⟩ := e
    exact hnm hm0
  · have hmem : (x1, y1) ∈ moore x y := (mem_moore x y x1 y1).2 ⟨ha, e⟩
    unfold adjacentMines at h0
    have := (List.countP_eq_zero.1 h0) (x1, y1) hmem
    apply this
    unfold isMineAt
    simp [hb1, hm0]

/-- C2: on a board whose counts `countMines` produced and on which no tile
is revealed, `revealTile(row, col)` on an in-bounds tile with count 0
returns, and the tiles it leaves revealed are exactly the count-0 tiles
reachable from `(row, col)` through 8-connected count-0 tiles together with
their in-bounds Moore neighbours; all other tiles stay unrevealed. -/
theorem revealTile_flood (numRows numCols fuel : Nat) (board0 : Grid Int) (g : Game)
    (row col : Int)
    (hw0 : Grid.WF numRows numCols board0)
    (hcm : countMines numRows numCols board0 = .ok g.board)
    (hwr : Grid.WF numRows numCols g.revealed)
    (hnone : ∀ x y : Int, Grid.get g.revealed x y ≠ some true)
    (hb : inBounds numRows numCols row col)
    (hz : Grid.get g.board row col = some 0)
    (hf : unrevealed g < fuel) :
    ∃ t, revealTile numRows numCols fuel g row col = .ok t ∧
      ∀ x y : Int, Grid.get t.revealed x y = some true ↔
        (ZeroPath numRows numCols g.board row col x y ∨
          ∃ zx zy, ZeroPath numRows numCols g.board row col zx zy ∧
            (x, y) ∈ moore zx zy ∧ inBounds numRows numCols x y) := by
  have hwb : Grid.WF numRows numCols g.board := (countMines_board_WF hw0 hcm).1
  obtain ⟨t, et, ext, tgt⟩ := revealTile_spec fuel g row col hwb hwr hf
  have hz0 : ZeroPath numRows numCols g.board row col row col := ZeroPath.start hb hz
  have hall : ∀ zx zy, ZeroPath numRows numCols g.board row col zx zy → Rev t zx zy := by
    intro zx zy hp
    induction hp with
    | start _ _ => exact tgt hb
    | step hp1 ha hb1 _ ih =>
      exact ext.closure _ _ _ _ ih (hnone _ _) hp1.zero.1 ha hb1
  refine ⟨t, et, fun x y => ⟨fun hr => ?_, fun hr => ?_⟩⟩
  · have hbxy : inBounds numRows numCols x y := Grid.inBounds_of_get ext.wf hr
    rcases ext.sound x y hr (hnone x y) with ⟨rfl, rfl⟩ | ⟨zx, zy, hp, ha⟩
    · exact Or.inl hz0
    · by_cases e : x = zx ∧ y = zy
      · obtain ⟨rfl, rfl⟩ := e
        exact Or.inl hp
      · exact Or.inr ⟨zx, zy, hp, (mem_moore zx zy x y).2 ⟨ha, e⟩, hbxy⟩
  · rcases hr with hp | ⟨zx, zy, hp, hm, hbxy⟩
    · exact hall x y hp
    · exact ext.closure zx zy x y (hall zx zy hp) (hnone _ _) hp.zero.1
        ((mem_moore zx zy x y).1 hm).1 hbxy

theorem revealTile_flood_witness :
    (Grid.WF 5 5 (makeGrid 5 5 (0 : Int)) ∧
      countMines 5 5 (makeGrid 5 5 0) = .ok (freshGame 5 5 (makeGrid 5 5 0)).board ∧
      Grid.WF 5 5 (freshGame 5 5 (makeGrid 5 5 0)).revealed ∧
      inBounds 5 5 0 0 ∧
      Grid.get (freshGame 5 5 (makeGrid 5 5 0)).board 0 0 = some 0 ∧
      unrevealed (freshGame 5 5 (makeGrid 5 5 0)) < 26) ∧
    revealTile 5 5 26 (freshGame 5 5 (makeGrid 5 5 0)) 0 0 =
      .ok { freshGame 5 5 (makeGrid 5 5 0) with revealed := makeGrid 5 5 true } ∧
    ∃ t, revealTile 5 5 26 (freshGame 5 5 (makeGrid 5 5 0)) 0 0 = .ok t ∧
      ∀ x y : Int, Grid.get t.revealed x y = some true ↔
        (ZeroPath 5 5 (freshGame 5 5 (makeGrid 5 5 0)).board 0 0 x y ∨
          ∃ zx zy, ZeroPath 5 5 (freshGame 5 5 (makeGrid 5 5 0)).board 0 0 zx zy ∧
            (x, y) ∈ moore zx zy ∧ inBounds 5 5 x y) :=
  ⟨⟨by decide, by decide, by decide, by decide, by decide, by decide⟩, by decide,
    revealTile_flood 5 5 26 (makeGrid 5 5 0) (freshGame 5 5 (makeGrid 5 5 0)) 0 0
      (by decide) (by decide) (by decide)
      (fun x y h => by
        have := makeGrid_get false h
        cases this)
      (by decide) (by decide) (by decide)⟩

/-! ## Mines and the flood fill -/

theorem revealTile_on_mine (numRows numCols fuel : Nat) {g : Game} {r c : Int}
    (hb : inBounds numRows numCols r c)
    (hv : Grid.get g.revealed r c = some false)
    (hm : Grid.get g.board r c = some (-1)) :
    ∃ rev1, Grid.set g.revealed r c true = some rev1 ∧
      revealTile numRows numCols (fuel + 1) g r c =
        .ok { g with revealed := rev1, gameOver := true } := by
  obtain ⟨rev1, hs⟩ := Grid.set_of_get true hv
  refine ⟨rev1, hs, ?_⟩
  have hcond : ¬ (r < 0 ∨ r ≥ numRows ∨ c < 0 ∨ c ≥ numCols) := by
    unfold inBounds at hb; omega
  rw [revealTile, if_neg hcond]
  simp only [hv, hs, hm, if_true]

/-- On a consistent board a newly revealed mine can only be the target. -/
theorem new_mine_is_target {numRows numCols : Nat} {g t : Game} {r c x y : Int}
    (hcons : Consistent numRows numCols g.board)
    (hspec : RevealSpec numRows numCols g r c t)
    (ht : Rev t x y) (hg : ¬ Rev g x y) (hm : Grid.get g.board x y = some (-1)) :
    x = r ∧ y = c := by
  rcases hspec.1.sound x y ht hg with e | ⟨zx, zy, hp, ha⟩
  · exact e
  · exact absurd hm
      (hcons zx zy x y hp.zero.1 ha (Grid.inBounds_of_get hspec.1.wf ht))

/-- C10: on a board whose counts `countMines` produced, whatever is already
revealed, `revealTile(row, col)` returns; when the target is not a mine it
reveals no mine and leaves `gameOver` as it was; `gameOver` is true
afterwards exactly when it was true before or the target is an in-bounds,
unrevealed mine, and in that case the target is the only tile newly
revealed. -/
theorem revealTile_mines (numRows numCols fuel : Nat) (board0 : Grid Int) (g : Game)
    (row col : Int)
    (hw0 : Grid.WF numRows numCols board0)
    (hcm : countMines numRows numCols board0 = .ok g.board)
    (hwr : Grid.WF numRows numCols g.revealed)
    (hf : unrevealed g < fuel) :
    ∃ t, revealTile numRows numCols fuel g row col = .ok t ∧
      (Grid.get g.board row col ≠ some (-1) →
        t.gameOver = g.gameOver ∧
        ∀ x y : Int, Grid.get g.board x y = some (-1) →
          Grid.get t.revealed x y = Grid.get g.revealed x y) ∧
      (t.gameOver = true ↔
        g.gameOver = true ∨
          (inBounds numRows numCols row col ∧ Grid.get g.revealed row col = some false ∧
            Grid.get g.board row col = some (-1))) ∧
      (inBounds numRows numCols row col → Grid.get g.revealed row col = some false →
        Grid.get g.board row col = some (-1) →
        ∀ x y : Int, Grid.get t.revealed x y =
          if x = row ∧ y = col then some true else Grid.get g.revealed x y) := by
  have hinv := countMines_board_WF hw0 hcm
  have hcons : Consistent numRows numCols g.board := countMines_consistent hw0 hinv
  obtain ⟨t, et, hspec⟩ := revealTile_spec fuel g row col hinv.1 hwr hf
  have hcause : t.gameOver = true → g.gameOver = true ∨
      (inBounds numRows numCols row col ∧ Grid.get g.revealed row col = some false ∧
        Grid.get g.board row col = some (-1)) := by
    intro h
    rcases hspec.1.overCause h with h1 | ⟨x, y, hxt, hxg, hxm⟩
    · exact Or.inl h1
    · obtain ⟨rfl, rfl⟩ := new_mine_is_target hcons hspec hxt hxg hxm
      have hbx := Grid.inBounds_of_get hspec.1.wf hxt
      obtain ⟨b, hb⟩ := Grid.get_of_WF hwr hbx
      cases b with
      | true => exact absurd hb hxg
      | false => exact Or.inr ⟨hbx, hb, hxm⟩
  refine ⟨t, et, fun hnm => ⟨?_, ?_⟩, ⟨hcause, ?_⟩, ?_⟩
  · cases hgo : g.gameOver with
    | true => exact hspec.1.overMono hgo
    | false =>
      cases hto : t.gameOver with
      | false => rfl
      | true =>
        rcases hcause hto with h1 | ⟨_, _, h1⟩
        · rw [hgo] at h1; cases h1
        · exact absurd h1 hnm
  · intro x y hxm
    cases hgx : Grid.get g.revealed x y with
    | none =>
      cases htx : Grid.get t.revealed x y with
      | none => rfl
      | some b =>
        have hbx := Grid.inBounds_of_get hspec.1.wf htx
        obtain ⟨b1, hb1⟩ := Grid.get_of_WF hwr hbx
        rw [hb1] at hgx
        cases hgx
    | some b =>
      cases b with
      | true => exact hspec.1.mono x y hgx
      | false =>
        have hbx := Grid.inBounds_of_get hwr hgx
        obtain ⟨b1, hb1⟩ := Grid.get_of_WF hspec.1.wf hbx
        cases b1 with
        | false => exact hb1
        | true =>
          have hng : ¬ Rev g x y := by unfold Rev; rw [hgx]; simp
          obtain ⟨rfl, rfl⟩ := new_mine_is_target hcons hspec hb1 hng hxm
          exact absurd hxm hnm
  · rintro (h | ⟨hb, hv, hm⟩)
    · exact hspec.1.overMono h
    · obtain ⟨k, rfl⟩ : ∃ k, fuel = k + 1 := ⟨fuel - 1, by omega⟩
      obtain ⟨rev1, _, e1⟩ := revealTile_on_mine numRows numCols
        k hb hv hm
      rw [e1] at et
      have : t = { g with revealed := rev1, gameOver := true } := by injection et with h; exact h.symm
      rw [this]
  · intro hb hv hm x y
    obtain ⟨k, rfl⟩ : ∃ k, fuel = k + 1 := ⟨fuel - 1, by omega⟩
    obtain ⟨rev1, hs, e1⟩ := revealTile_on_mine numRows numCols
      k hb hv hm
    rw [e1] at et
    have : t = { g with revealed := rev1, gameOver := true } := by injection et with h; exact h.symm
    rw [this]
    exact Grid.get_set hs x y

theorem revealTile_mines_witness :
    (Grid.WF 3 3 [[-1, 0, 0], [0, 0, 0], [0, 0, 0]] ∧
      countMines 3 3 [[-1, 0, 0], [0, 0, 0], [0, 0, 0]] =
        .ok (freshGame 3 3 [[-1, 1, 0], [1, 1, 0], [0, 0, 0]]).board ∧
      Grid.WF 3 3 (freshGame 3 3 [[-1, 1, 0], [1, 1, 0], [0, 0, 0]]).revealed ∧
      unrevealed (freshGame 3 3 [[-1, 1, 0], [1, 1, 0], [0, 0, 0]]) < 10) ∧
    ∃ t, revealTile 3 3 10 (freshGame 3 3 [[-1, 1, 0], [1, 1, 0], [0, 0, 0]]) 0 0 = .ok t ∧
      (Grid.get (freshGame 3 3 [[-1, 1, 0], [1, 1, 0], [0, 0, 0]]).board 0 0 ≠ some (-1) →
        t.gameOver = (freshGame 3 3 [[-1, 1, 0], [1, 1, 0], [0, 0, 0]]).gameOver ∧
        ∀ x y : Int,
          Grid.get (freshGame 3 3 [[-1, 1, 0], [1, 1, 0], [0, 0, 0]]).board x y = some (-1) →
          Grid.get t.revealed x y =
            Grid.get (freshGame 3 3 [[-1, 1, 0], [1, 1, 0], [0, 0, 0]]).revealed x y) ∧
      (t.gameOver = true ↔
        (freshGame 3 3 [[-1, 1, 0], [1, 1, 0], [0, 0, 0]]).gameOver = true ∨
          (inBounds 3 3 0 0 ∧
            Grid.get (freshGame 3 3 [[-1, 1, 0], [1, 1, 0], [0, 0, 0]]).revealed 0 0 =
              some false ∧
            Grid.get (freshGame 3 3 [[-1, 1, 0], [1, 1, 0], [0, 0, 0]]).board 0 0 =
              some (-1))) ∧
      (inBounds 3 3 0 0 →
        Grid.get (freshGame 3 3 [[-1, 1, 0], [1, 1, 0], [0, 0, 0]]).revealed 0 0 =
          some false →
        Grid.get (freshGame 3 3 [[-1, 1, 0], [1, 1, 0], [0, 0, 0]]).board 0 0 = some (-1) →
        ∀ x y : Int, Grid.get t.revealed x y =
          if x = 0 ∧ y = 0 then some true
          else Grid.get (freshGame 3 3 [[-1, 1, 0], [1, 1, 0], [0, 0, 0]]).revealed x y) :=
  ⟨⟨by decide, by decide, by decide, by decide⟩,
    revealTile_mines 3 3 10 [[-1, 0, 0], [0, 0, 0], [0, 0, 0]]
      (freshGame 3 3 [[-1, 1, 0], [1, 1, 0], [0, 0, 0]]) 0 0
      (by decide) (by decide) (by decide) (by decide)⟩

/-! ## The win scan -/

theorem scanRow_spec {numRows numCols : Nat} {g : Game}
    (hwb : Grid.WF numRows numCols g.board) (hwr : Grid.WF numRows numCols g.revealed)
    (row : Nat) (hrow : row < numRows) :
    ∀ (cols : List Nat) (win : Bool), (∀ col ∈ cols, col < numCols) →
      ∃ w, scanRow g row cols win = .ok w ∧
        (w = true ↔ win = true ∧ ∀ col ∈ cols,
          Grid.get g.board row (col : Nat) ≠ some (-1) →
            Grid.get g.revealed row (col : Nat) = some true)
  | [], win, _ => ⟨win, rfl, by simp⟩
  | col :: rest, win, hc => by
    have hcol : col < numCols := hc col (List.mem_cons_self _ _)
    have hb : inBounds numRows numCols row col := by unfold inBounds; omega
    obtain ⟨v, hv⟩ := Grid.get_of_WF hwb hb
    obtain ⟨b, hr⟩ := Grid.get_of_WF hwr hb
    obtain ⟨w, ew, hw⟩ := scanRow_spec hwb hwr row hrow rest win
      (fun c1 h1 => hc c1 (List.mem_cons_of_mem _ h1))
    rw [scanRow]
    simp only [hv, hr]
    by_cases e : v = -1
    · rw [if_neg (not_not.2 e)]
      refine ⟨w, ew, ?_⟩
      rw [hw]
      simp [hv, e]
    · rw [if_pos e]
      cases b with
      | false =>
        refine ⟨false, rfl, ?_⟩
        simp [hv, hr, e]
      | true =>
        refine ⟨w, by simpa using ew, ?_⟩
        rw [hw]
        simp [hv, hr]

theorem winScan_spec {numRows numCols : Nat} {g : Game}
    (hwb : Grid.WF numRows numCols g.board) (hwr : Grid.WF numRows numCols g.revealed) :
    ∃ win, winScan numRows numCols g = .ok win ∧
      (win = true ↔ ∀ r c : Int, inBounds numRows numCols r c →
        Grid.get g.board r c ≠ some (-1) → Grid.get g.revealed r c = some true) := by
  obtain ⟨win, e, h⟩ := forEach_range
    (fun (row : Nat) win => scanRow g row (List.range numCols) win)
    (fun k w => w = true ↔ ∀ r c : Nat, r < k → c < numCols →
      Grid.get g.board r c ≠ some (-1) → Grid.get g.revealed r c = some true)
    numRows true (by simp)
    (by
      intro k hk w hw
      obtain ⟨w1, e1, h1⟩ := scanRow_spec hwb hwr k hk (List.range numCols) w
        (fun col hcol => List.mem_range.1 hcol)
      refine ⟨w1, e1, ?_⟩
      dsimp only
      rw [h1, hw]
      constructor
      · rintro ⟨ha, hb⟩ r c hr hc
        by_cases e : r = k
        · subst e; exact hb c (List.mem_range.2 hc)
        · exact ha r c (by omega) hc
      · intro ha
        exact ⟨fun r c hr hc => ha r c (by omega) hc,
          fun c hc => ha k c (by omega) (List.mem_range.1 hc)⟩)
  refine ⟨win, e, ?_⟩
  rw [h]
  constructor
  · intro ha r c hb
    have h1 := ha r.toNat c.toNat (by unfold inBounds at hb; omega)
      (by unfold inBounds at hb; omega)
    rw [Int.toNat_of_nonneg hb.1, Int.toNat_of_nonneg hb.2.2.1] at h1
    exact h1
  · intro ha r c hr hc
    exact ha r c (by unfold inBounds; omega)

/-- C4: on `numRows x numCols` grids the win scan that ends a non-terminal
`Update` returns `win = true` exactly when every tile whose board value
differs from `-1` is revealed; `gameWon` becomes true in that case and keeps
its value otherwise; board, revealed, flagged and `gameOver` are as before
the scan; and this is how every non-terminal `Update` ends. -/
theorem winScan_iff (numRows numCols : Nat) (g : Game)
    (hwb : Grid.WF numRows numCols g.board) (hwr : Grid.WF numRows numCols g.revealed) :
    ∃ win, winScan numRows numCols g = .ok win ∧
      (win = true ↔ ∀ r c : Int, inBounds numRows numCols r c →
        Grid.get g.board r c ≠ some (-1) → Grid.get g.revealed r c = some true) ∧
      (applyWin g win).gameWon = (if win = true then true else g.gameWon) ∧
      (applyWin g win).board = g.board ∧ (applyWin g win).revealed = g.revealed ∧
      (applyWin g win).flagged = g.flagged ∧ (applyWin g win).gameOver = g.gameOver ∧
      ∀ (numMines fuel : Nat) (samples : List (Int × Int)) (inp : Input) (g0 g1 : Game),
        g0.gameOver = false → g0.gameWon = false →
        leftClick numRows numCols fuel inp g0 = .ok g1 →
        rightClick numRows numCols inp g1 = .ok g →
        Update numRows numCols numMines fuel samples inp g0 = .ok (applyWin g win) := by
  obtain ⟨win, e, h⟩ := winScan_spec hwb hwr
  refine ⟨win, e, h, ?_, ?_, ?_, ?_, ?_, ?_⟩
  · cases win <;> simp [applyWin]
  · cases win <;> simp [applyWin]
  · cases win <;> simp [applyWin]
  · cases win <;> simp [applyWin]
  · cases win <;> simp [applyWin]
  · intro numMines fuel samples inp g0 g1 ho hwon hl hr
    unfold Update
    simp only [ho, hwon, Bool.false_eq_true, or_self, if_false, hl, hr, e]

theorem winScan_iff_witness :
    (Grid.WF 2 2 [[-1, 1], [1, 1]] ∧ Grid.WF 2 2 [[false, true], [true, true]]) ∧
    runOps 2 2 5 [Op.reveal 0 1, Op.reveal 1 0, Op.reveal 1 1]
        (freshGame 2 2 [[-1, 1], [1, 1]]) =
      .ok { freshGame 2 2 [[-1, 1], [1, 1]] with revealed := [[false, true], [true, true]] } ∧
    winScan 2 2
        { freshGame 2 2 [[-1, 1], [1, 1]] with revealed := [[false, true], [true, true]] } =
      .ok true ∧
    ∃ win, winScan 2 2
          { freshGame 2 2 [[-1, 1], [1, 1]] with revealed := [[false, true], [true, true]] } =
        .ok win ∧
      (win = true ↔ ∀ r c : Int, inBounds 2 2 r c →
        Grid.get [[-1, 1], [1, 1]] r c ≠ some (-1) →
          Grid.get [[false, true], [true, true]] r c = some true) :=
  ⟨⟨by decide, by decide⟩, by decide, by decide,
    (winScan_iff 2 2
      { freshGame 2 2 [[-1, 1], [1, 1]] with revealed := [[false, true], [true, true]] }
      (by decide) (by decide)).imp (fun _ h => ⟨h.1, h.2.1⟩)⟩

/-! ## Flags, terminal states and out-of-grid clicks -/

/-- C6 (the code departs from the claim): on a fresh 2 x 2 board, `flag(1, 1)`
followed by `revealTile(1, 1)`, both on an in-bounds tile, leaves the tile
revealed and flagged at once, because `revealTile` never looks at `flagged`. -/
theorem flagged_tile_revealed :
    ∃ t, runOps 2 2 5 [Op.flag 1 1, Op.reveal 1 1] (freshGame 2 2 [[-1, 1], [1, 1]]) = .ok t ∧
      Grid.get t.revealed 1 1 = some true ∧ Grid.get t.flagged 1 1 = some true :=
  ⟨{ freshGame 2 2 [[-1, 1], [1, 1]] with
      revealed := [[false, false], [false, true]]
      flagged := [[false, false], [false, true]] },
    by decide, by decide, by decide⟩

/-- C7, as stated, fails: with `gameOver` already true, a direct call of
`revealTile(1, 1)` reveals the tile and a direct call of `flag(1, 1)` flags
it; neither method tests `gameOver` or `gameWon`. -/
theorem terminal_calls_change_state :
    ({ freshGame 2 2 [[-1, 1], [1, 1]] with gameOver := true } : Game).gameOver = true ∧
    revealTile 2 2 5 { freshGame 2 2 [[-1, 1], [1, 1]] with gameOver := true } 1 1 =
      .ok { freshGame 2 2 [[-1, 1], [1, 1]] with
            gameOver := true, revealed := [[false, false], [false, true]] } ∧
    flag { freshGame 2 2 [[-1, 1], [1, 1]] with gameOver := true } 1 1 =
      .ok { freshGame 2 2 [[-1, 1], [1, 1]] with
            gameOver := true, flagged := [[false, false], [false, true]] } :=
  ⟨rfl, by decide, by decide⟩

/-- C7, amended: when `gameOver` or `gameWon` is true, `Update` takes its
terminal branch, which calls neither `revealTile` nor `flag`; unless the left
button is down on the Restart or the Exit button, `Update` returns with
board, revealed, flagged, `gameOver` and `gameWon` unchanged, whatever the
mouse reports. -/
theorem update_terminal_freeze (numRows numCols numMines fuel : Nat)
    (samples : List (Int × Int)) (inp : Input) (g : Game)
    (hterm : g.gameOver = true ∨ g.gameWon = true)
    (hno : inp.leftPressed = false ∨
      (isMouseInButton inp.cursorX inp.cursorY (showButtons g).restartBtn = false ∧
        isMouseInButton inp.cursorX inp.cursorY (showButtons g).exitBtn = false)) :
    Update numRows numCols numMines fuel samples inp g =
        updateTerminal numRows numCols numMines samples inp g ∧
    ∃ t, Update numRows numCols numMines fuel samples inp g = .ok t ∧
      t.board = g.board ∧ t.revealed = g.revealed ∧ t.flagged = g.flagged ∧
      t.gameOver = g.gameOver ∧ t.gameWon = g.gameWon := by
  have hu : Update numRows numCols numMines fuel samples inp g =
      updateTerminal numRows numCols numMines samples inp g := by
    unfold Update
    rw [if_pos hterm]
  have hs : (showButtons g).board = g.board ∧ (showButtons g).revealed = g.revealed ∧
      (showButtons g).flagged = g.flagged ∧ (showButtons g).gameOver = g.gameOver ∧
      (showButtons g).gameWon = g.gameWon := by
    unfold showButtons
    split <;> exact ⟨rfl, rfl, rfl, rfl, rfl⟩
  refine ⟨hu, showButtons g, ?_, hs⟩
  rw [hu]
  unfold updateTerminal
  rcases hno with h | ⟨h1, h2⟩
  · simp [h]
  · simp [h1, h2]

theorem update_terminal_freeze_witness :
    (({ freshGame 2 2 [[-1, 1], [1, 1]] with gameOver := true } : Game).gameOver = true ∨
      ({ freshGame 2 2 [[-1, 1], [1, 1]] with gameOver := true } : Game).gameWon = true) ∧
    Update 2 2 1 5 []
        { leftPressed := true, rightPressed := true, cursorX := 45, cursorY := 45 }
        { freshGame 2 2 [[-1, 1], [1, 1]] with gameOver := true } =
      updateTerminal 2 2 1 []
        { leftPressed := true, rightPressed := true, cursorX := 45, cursorY := 45 }
        { freshGame 2 2 [[-1, 1], [1, 1]] with gameOver := true } ∧
    ∃ t, Update 2 2 1 5 []
          { leftPressed := true, rightPressed := true, cursorX := 45, cursorY := 45 }
          { freshGame 2 2 [[-1, 1], [1, 1]] with gameOver := true } = .ok t ∧
      t.board = [[-1, 1], [1, 1]] ∧ t.revealed = makeGrid 2 2 false ∧
      t.flagged = makeGrid 2 2 false ∧ t.gameOver = true ∧ t.gameWon = false :=
  ⟨Or.inl rfl,
    update_terminal_freeze 2 2 1 5 []
      { leftPressed := true, rightPressed := true, cursorX := 45, cursorY := 45 }
      { freshGame 2 2 [[-1, 1], [1, 1]] with gameOver := true }
      (Or.inl rfl) (Or.inr ⟨by decide, by decide⟩)⟩

/-- C9, as stated, fails: `flag(-1, 0)` and `flag(2, 0)` on a 2 x 2 game stop
with an index-out-of-range panic; `flag` has no bounds test. -/
theorem flag_panics_outside_grid :
    flag (freshGame 2 2 [[-1, 1], [1, 1]]) (-1) 0 = .error Fault.indexOutOfRange ∧
    flag (freshGame 2 2 [[-1, 1], [1, 1]]) 2 0 = .error Fault.indexOutOfRange :=
  ⟨by decide, by decide⟩

/-- C9, amended: for every `(row, col)` outside the grid, the right-button
block of `Update`, the only caller of `flag`, does not call `flag` and
returns the game unchanged; `flag` itself, called on `numRows x numCols`
grids with such an index, stops with an index-out-of-range panic. -/
theorem flag_out_of_grid (numRows numCols : Nat) (g : Game) (row col : Int)
    (hwr : Grid.WF numRows numCols g.revealed)
    (hout : ¬ inBounds numRows numCols row col) :
    flag g row col = .error Fault.indexOutOfRange ∧
    ∀ inp : Input, Int.tdiv inp.cursorY tileSize = row → Int.tdiv inp.cursorX tileSize = col →
      rightClick numRows numCols inp g = .ok g := by
  constructor
  · cases hv : Grid.get g.revealed row col with
    | none => unfold flag; rw [hv]
    | some b => exact absurd (Grid.inBounds_of_get hwr hv) hout
  · intro inp hr hc
    unfold rightClick
    unfold inBounds at hout
    simp only [hr, hc]
    split <;> rfl

theorem flag_out_of_grid_witness :
    (Grid.WF 2 2 (freshGame 2 2 [[-1, 1], [1, 1]]).revealed ∧ ¬ inBounds 2 2 0 2) ∧
    flag (freshGame 2 2 [[-1, 1], [1, 1]]) 0 2 = .error Fault.indexOutOfRange ∧
    ∀ inp : Input, Int.tdiv inp.cursorY tileSize = 0 → Int.tdiv inp.cursorX tileSize = 2 →
      rightClick 2 2 inp (freshGame 2 2 [[-1, 1], [1, 1]]) =
        .ok (freshGame 2 2 [[-1, 1], [1, 1]]) :=
  ⟨⟨by decide, by decide⟩,
    flag_out_of_grid 2 2 (freshGame 2 2 [[-1, 1], [1, 1]]) 0 2 (by decide) (by decide)⟩

end Minesweeper
